import Mathlib

/-!
Verification of the TFTP server (mhajder/tftp-rs).

Shallow embedding of the code under `src/`:
* `src/tftp_protocol.rs` — the wire codec (`Packet`, `Packet::from_bytes`,
  `Packet::to_bytes` and the parse helpers);
* `src/server.rs` — option negotiation (`negotiate_options`), the path
  sanitizer (`sanitize_path`), and the RRQ / WRQ session engines
  (`handle_rrq`, `handle_wrq`) together with the listener's error wrapper.

Rust `String` values are embedded as their UTF-8 byte content
(`ByteStr := List Nat`); machine integers are `Nat` with explicit `% 2 ^ 16`
where 16-bit wrap-around matters.  `HashMap<String, String>` is embedded as
an association list with distinct keys; its unspecified iteration order is
captured by quantifying over all list orders.
-/

set_option maxHeartbeats 1000000
set_option maxRecDepth 8000

/-- The byte content of a Rust `String` / `Vec<u8>` / `&[u8]`. -/
abbrev ByteStr := List Nat

/-- UTF-8 continuation byte test (`0x80 ..= 0xBF`). -/
def utf8Cont (b : Nat) : Bool := 0x80 ≤ b && b ≤ 0xBF

/-- Length (1–4) of the well-formed UTF-8 scalar encoding that starts the
list, or `none` if the list is empty or starts with an ill-formed sequence.
Models the acceptance automaton of Rust's `std::str::from_utf8`
(RFC 3629 table: no overlongs, no surrogates, max U+10FFFF). -/
def utf8SeqLen : List Nat → Option Nat
  | [] => none
  | b :: rest =>
    if b ≤ 0x7F then some 1
    else if 0xC2 ≤ b && b ≤ 0xDF then
      match rest with
      | c1 :: _ => if utf8Cont c1 then some 2 else none
      | [] => none
    else if b = 0xE0 then
      match rest with
      | c1 :: c2 :: _ =>
        if (0xA0 ≤ c1 && c1 ≤ 0xBF) && utf8Cont c2 then some 3 else none
      | _ => none
    else if (0xE1 ≤ b && b ≤ 0xEC) || b = 0xEE || b = 0xEF then
      match rest with
      | c1 :: c2 :: _ => if utf8Cont c1 && utf8Cont c2 then some 3 else none
      | _ => none
    else if b = 0xED then
      match rest with
      | c1 :: c2 :: _ =>
        if (0x80 ≤ c1 && c1 ≤ 0x9F) && utf8Cont c2 then some 3 else none
      | _ => none
    else if b = 0xF0 then
      match rest with
      | c1 :: c2 :: c3 :: _ =>
        if (0x90 ≤ c1 && c1 ≤ 0xBF) && (utf8Cont c2 && utf8Cont c3) then some 4 else none
      | _ => none
    else if 0xF1 ≤ b && b ≤ 0xF3 then
      match rest with
      | c1 :: c2 :: c3 :: _ =>
        if utf8Cont c1 && (utf8Cont c2 && utf8Cont c3) then some 4 else none
      | _ => none
    else if b = 0xF4 then
      match rest with
      | c1 :: c2 :: c3 :: _ =>
        if (0x80 ≤ c1 && c1 ≤ 0x8F) && (utf8Cont c2 && utf8Cont c3) then some 4 else none
      | _ => none
    else none

/-- Fueled UTF-8 validity scan; fuel `≥` list length always suffices since
each accepted scalar consumes at least one byte. -/
def validUtf8Fuel : Nat → List Nat → Bool
  | _, [] => true
  | 0, _ :: _ => false
  | fuel + 1, l =>
    match utf8SeqLen l with
    | some n => validUtf8Fuel fuel (l.drop n)
    | none => false

/-- Model of `String::from_utf8(bytes)` succeeds exactly when this holds. -/
def validUtf8 (l : List Nat) : Bool := validUtf8Fuel l.length l

/-- Fueled lossy decoding: valid scalars are copied, an ill-formed sequence
is replaced by U+FFFD (bytes `EF BF BD`) and the scan advances one byte.
Models `String::from_utf8_lossy`; the per-error advancement granularity is
a simplification of std's maximal-subpart rule, which only affects the
output on ill-formed input (every claim below depends only on totality and
on identity for valid input). -/
def lossyFuel : Nat → List Nat → List Nat
  | _, [] => []
  | 0, _ :: _ => []
  | fuel + 1, l =>
    match utf8SeqLen l with
    | some n => l.take n ++ lossyFuel fuel (l.drop n)
    | none => 0xEF :: 0xBF :: 0xBD :: lossyFuel fuel (l.drop 1)

/-- Model of `String::from_utf8_lossy(bytes).to_string()` as bytes. -/
def from_utf8_lossy (l : List Nat) : List Nat := lossyFuel l.length l

/-- Model of `u8::to_ascii_lowercase`, applied bytewise: on UTF-8 content this is
exactly `str::to_ascii_lowercase` (continuation bytes are `≥ 0x80`). -/
def lowerByte (b : Nat) : Nat := if 65 ≤ b && b ≤ 90 then b + 32 else b

/-- Model of `str::to_ascii_lowercase` on UTF-8 bytes. -/
def lowerBytes (s : ByteStr) : ByteStr := s.map lowerByte

/-- The string contains no NUL byte (its on-wire field is self-delimiting). -/
def nulFree (s : ByteStr) : Bool := s.all (fun b => b ≠ 0)

/-- Model of `u16::to_be_bytes` for a value already reduced below `2 ^ 16`. -/
def be16 (n : Nat) : List Nat := [n / 256 % 256, n % 256]

/-- Model of `u16::from_be_bytes [a, b]`. -/
def fromBe16 (a b : Nat) : Nat := a * 256 + b

/-- Rust `slice::split(|&b| b == 0).collect::<Vec<_>>()`: `n` separators
yield `n + 1` fields, including a trailing empty field after a final NUL. -/
def splitOnZero : List Nat → List (List Nat)
  | [] => [[]]
  | b :: rest =>
    if b = 0 then [] :: splitOnZero rest
    else
      match splitOnZero rest with
      | f :: fs => (b :: f) :: fs
      | [] => [[b]]

/-- Model of `HashMap::insert`: replace the value when the key is present, otherwise
add the binding (list position models one possible iteration order). -/
def insertOpt (m : List (ByteStr × ByteStr)) (k v : ByteStr) :
    List (ByteStr × ByteStr) :=
  if m.any (fun p => p.1 = k) then
    m.map (fun p => if p.1 = k then (k, v) else p)
  else m ++ [(k, v)]

/-- Model of `HashMap::get`. -/
def lookupOpt (m : List (ByteStr × ByteStr)) (k : ByteStr) : Option ByteStr :=
  (m.find? (fun p => p.1 = k)).map (fun p => p.2)

/-- Model of `Packet` from src/tftp_protocol.rs: a fully parsed TFTP packet.
Strings are their UTF-8 bytes, `u16` fields are `Nat` values `< 2 ^ 16`,
options maps are association lists. -/
inductive Packet where
  | RRQ (filename : ByteStr) (mode : ByteStr) (options : List (ByteStr × ByteStr))
  | WRQ (filename : ByteStr) (mode : ByteStr) (options : List (ByteStr × ByteStr))
  | DATA (block_num : Nat) (data : ByteStr)
  | ACK (block_num : Nat)
  | ERROR (code : Nat) (msg : ByteStr)
  | OACK (options : List (ByteStr × ByteStr))
deriving DecidableEq

/-- The RFC 2347 option loop of `parse_request` / `parse_oack`
(`while i + 1 < fields.len()` stepping by two ≡ recursion on field pairs):
validate key and value as UTF-8, lowercase the key, insert unless the key
is empty; a dangling unpaired trailing field is ignored. -/
def parseOptionPairs :
    List ByteStr → List (ByteStr × ByteStr) →
    Except String (List (ByteStr × ByteStr))
  | k :: v :: rest, acc =>
    if validUtf8 k then
      if validUtf8 v then
        let key := lowerBytes k
        parseOptionPairs rest (if key = [] then acc else insertOpt acc key v)
      else .error "invalid utf-8"
    else .error "invalid utf-8"
  | _, acc => .ok acc

/-- Model of `parse_request` (src/tftp_protocol.rs:133-173). -/
def parse_request (buf : List Nat) (is_rrq : Bool) : Except String Packet :=
  let fields := splitOnZero (buf.drop 2)
  if fields.length < 2 then .error "missing filename or mode"
  else
    if validUtf8 (fields.getD 0 []) then
      if validUtf8 (fields.getD 1 []) then
        let filename := fields.getD 0 []
        let mode := lowerBytes (fields.getD 1 [])
        if filename = [] then .error "empty filename"
        else
          match parseOptionPairs (fields.drop 2) [] with
          | .ok options =>
            .ok (if is_rrq then .RRQ filename mode options
                 else .WRQ filename mode options)
          | .error e => .error e
      else .error "invalid utf-8"
    else .error "invalid utf-8"

/-- Model of `parse_data` (src/tftp_protocol.rs:176-183). -/
def parse_data (buf : List Nat) : Except String Packet :=
  if buf.length < 4 then .error "DATA packet too short"
  else .ok (.DATA (fromBe16 (buf.getD 2 0) (buf.getD 3 0)) (buf.drop 4))

/-- Model of `parse_ack` (src/tftp_protocol.rs:186-192). -/
def parse_ack (buf : List Nat) : Except String Packet :=
  if buf.length < 4 then .error "ACK packet too short"
  else .ok (.ACK (fromBe16 (buf.getD 2 0) (buf.getD 3 0)))

/-- Model of `parse_error` (src/tftp_protocol.rs:195-208): the message runs up to the
first NUL (or end of buffer) and is decoded lossily — it never fails. -/
def parse_error (buf : List Nat) : Except String Packet :=
  if buf.length < 5 then .error "ERROR packet too short"
  else
    let msg_bytes := buf.drop 4
    let e := msg_bytes.findIdx (fun b => b = 0)
    .ok (.ERROR (fromBe16 (buf.getD 2 0) (buf.getD 3 0))
          (from_utf8_lossy (msg_bytes.take e)))

/-- Model of `parse_oack` (src/tftp_protocol.rs:211-225). -/
def parse_oack (buf : List Nat) : Except String Packet :=
  match parseOptionPairs (splitOnZero (buf.drop 2)) [] with
  | .ok options => .ok (.OACK options)
  | .error e => .error e

/-- Model of `Packet::from_bytes` (src/tftp_protocol.rs:54-68). -/
def Packet.from_bytes (buf : List Nat) : Except String Packet :=
  if buf.length < 2 then .error "packet too short"
  else
    let opcode := fromBe16 (buf.getD 0 0) (buf.getD 1 0)
    if opcode = 1 then parse_request buf true
    else if opcode = 2 then parse_request buf false
    else if opcode = 3 then parse_data buf
    else if opcode = 4 then parse_ack buf
    else if opcode = 5 then parse_error buf
    else if opcode = 6 then parse_oack buf
    else .error "unknown opcode"

/-- The option/value block of `encode_request` and the OACK encoder:
`key ‖ 0x00 ‖ value ‖ 0x00` for each pair, in iteration order. -/
def encodeOptions (options : List (ByteStr × ByteStr)) : List Nat :=
  (options.map (fun p => p.1 ++ [0] ++ p.2 ++ [0])).flatten

/-- Model of `encode_request` (src/tftp_protocol.rs:227-246). -/
def encode_request (opcode : Nat) (filename mode : ByteStr)
    (options : List (ByteStr × ByteStr)) : List Nat :=
  be16 opcode ++ filename ++ [0] ++ mode ++ [0] ++ encodeOptions options

/-- Model of `Packet::to_bytes` (src/tftp_protocol.rs:71-116). -/
def Packet.to_bytes : Packet → List Nat
  | .RRQ f m o => encode_request 1 f m o
  | .WRQ f m o => encode_request 2 f m o
  | .DATA b d => be16 3 ++ be16 b ++ d
  | .ACK b => be16 4 ++ be16 b
  | .ERROR c m => be16 5 ++ be16 c ++ m ++ [0]
  | .OACK o => be16 6 ++ encodeOptions o

-- ---------------------------------------------------------------------------
-- Codec legality and equivalence
-- ---------------------------------------------------------------------------

/-- The option fields the parse loop actually validates: the members of the
maximal prefix of complete key/value pairs (a dangling unpaired trailing
field is never looked at). -/
def checkedOptionFields : List ByteStr → List ByteStr
  | k :: v :: rest => k :: v :: checkedOptionFields rest
  | _ => []

/-- The key/value field sequence produced by encoding an options map. -/
def pairFields : List (ByteStr × ByteStr) → List ByteStr
  | [] => []
  | (k, v) :: rest => k :: v :: pairFields rest

/-- A legal options map: keys and values are NUL-free UTF-8, keys are
non-empty and already lowercase, and keys are distinct (it is a map). -/
def legalOptions (o : List (ByteStr × ByteStr)) : Prop :=
  (∀ p ∈ o, nulFree p.1 = true ∧ validUtf8 p.1 = true ∧ p.1 ≠ [] ∧
      lowerBytes p.1 = p.1 ∧ nulFree p.2 = true ∧ validUtf8 p.2 = true) ∧
  (o.map Prod.fst).Nodup

/-- The claim's legality for a `Packet` value: text fields are (valid UTF-8,
being Rust `String`s and) free of NUL bytes, the mode and option keys are
lowercase, option keys are non-empty; `u16` fields are `< 2 ^ 16`. -/
def legalPacket : Packet → Prop
  | .RRQ f m o => nulFree f = true ∧ validUtf8 f = true ∧ nulFree m = true ∧
      validUtf8 m = true ∧ lowerBytes m = m ∧ legalOptions o
  | .WRQ f m o => nulFree f = true ∧ validUtf8 f = true ∧ nulFree m = true ∧
      validUtf8 m = true ∧ lowerBytes m = m ∧ legalOptions o
  | .DATA b _ => b < 65536
  | .ACK b => b < 65536
  | .ERROR c m => c < 65536 ∧ nulFree m = true ∧ validUtf8 m = true
  | .OACK o => legalOptions o

/-- The amendment forced by the decoder: RRQ/WRQ filenames must be
non-empty (`parse_request` rejects an empty filename). -/
def hasFilename : Packet → Prop
  | .RRQ f _ _ => f ≠ []
  | .WRQ f _ _ => f ≠ []
  | _ => True

/-- Packet equality up to option-map ordering (options compared as
multisets of key/value pairs; with distinct keys, as sets). -/
def packetEquiv : Packet → Packet → Prop
  | .RRQ f m o, .RRQ f' m' o' => f = f' ∧ m = m' ∧ o.Perm o'
  | .WRQ f m o, .WRQ f' m' o' => f = f' ∧ m = m' ∧ o.Perm o'
  | .DATA b d, .DATA b' d' => b = b' ∧ d = d'
  | .ACK b, .ACK b' => b = b'
  | .ERROR c m, .ERROR c' m' => c = c' ∧ m = m'
  | .OACK o, .OACK o' => o.Perm o'
  | _, _ => False

-- ---------------------------------------------------------------------------
-- Codec lemmas
-- ---------------------------------------------------------------------------

theorem lossyFuel_of_valid : ∀ (fuel : Nat) (l : List Nat),
    validUtf8Fuel fuel l = true → lossyFuel fuel l = l := by
  intro fuel
  induction fuel with
  | zero =>
    intro l h
    cases l with
    | nil => rfl
    | cons b rest => simp [validUtf8Fuel] at h
  | succ f ih =>
    intro l h
    cases l with
    | nil => rfl
    | cons b rest =>
      cases hseq : utf8SeqLen (b :: rest) with
      | none =>
        unfold validUtf8Fuel at h
        rw [hseq] at h
        simp at h
      | some n =>
        have h' : validUtf8Fuel f ((b :: rest).drop n) = true := by
          unfold validUtf8Fuel at h
          rw [hseq] at h
          simpa using h
        have hstep : lossyFuel (f + 1) (b :: rest) =
            (b :: rest).take n ++ lossyFuel f ((b :: rest).drop n) := by
          rw [lossyFuel, hseq]
          simp
        rw [hstep, ih _ h', List.take_append_drop]

theorem from_utf8_lossy_of_valid (l : List Nat) (h : validUtf8 l = true) :
    from_utf8_lossy l = l :=
  lossyFuel_of_valid l.length l h

theorem splitOnZero_ne_nil (l : List Nat) : splitOnZero l ≠ [] := by
  induction l with
  | nil => simp [splitOnZero]
  | cons b rest ih =>
    unfold splitOnZero
    by_cases hb : b = 0
    · simp [hb]
    · simp only [if_neg hb]
      cases h : splitOnZero rest with
      | nil => simp
      | cons f fs => simp

theorem splitOnZero_append (a r : List Nat) (ha : nulFree a = true) :
    splitOnZero (a ++ 0 :: r) = a :: splitOnZero r := by
  induction a with
  | nil => simp [splitOnZero]
  | cons b a' ih =>
    simp only [nulFree, List.all_cons, Bool.and_eq_true, decide_eq_true_eq] at ha
    have ha' : nulFree a' = true := by
      simp only [nulFree]; exact ha.2
    simp only [List.cons_append]
    rw [splitOnZero, if_neg ha.1, ih ha']

theorem splitOnZero_encodeOptions (o : List (ByteStr × ByteStr))
    (h : ∀ p ∈ o, nulFree p.1 = true ∧ nulFree p.2 = true) :
    splitOnZero (encodeOptions o) = pairFields o ++ [[]] := by
  induction o with
  | nil => rfl
  | cons p rest ih =>
    obtain ⟨k, v⟩ := p
    have hk := (h (k, v) (by simp)).1
    have hv := (h (k, v) (by simp)).2
    have hrest : ∀ p ∈ rest, nulFree p.1 = true ∧ nulFree p.2 = true :=
      fun p hp => h p (List.mem_cons_of_mem _ hp)
    have : encodeOptions ((k, v) :: rest) =
        k ++ 0 :: (v ++ 0 :: encodeOptions rest) := by
      simp [encodeOptions, List.append_assoc]
    rw [this, splitOnZero_append k _ hk, splitOnZero_append v _ hv, ih hrest]
    rfl

theorem insertOpt_fresh (acc : List (ByteStr × ByteStr)) (k v : ByteStr)
    (h : acc.any (fun q => q.1 = k) = false) :
    insertOpt acc k v = acc ++ [(k, v)] := by
  simp only [insertOpt, h]
  rfl

theorem parseOptionPairs_encode :
    ∀ (o acc : List (ByteStr × ByteStr)),
    (∀ p ∈ o, validUtf8 p.1 = true ∧ validUtf8 p.2 = true ∧ p.1 ≠ [] ∧
        lowerBytes p.1 = p.1) →
    (o.map Prod.fst).Nodup →
    (∀ p ∈ o, acc.any (fun q => q.1 = p.1) = false) →
    parseOptionPairs (pairFields o ++ [[]]) acc = .ok (acc ++ o) := by
  intro o
  induction o with
  | nil =>
    intro acc _ _ _
    simp [pairFields, parseOptionPairs]
  | cons p rest ih =>
    intro acc hleg hnodup hfresh
    obtain ⟨k, v⟩ := p
    obtain ⟨hku, hvu, hkne, hkl⟩ := hleg (k, v) (by simp)
    have hku' : validUtf8 k = true := hku
    have hvu' : validUtf8 v = true := hvu
    have hkne' : ¬ (k = []) := hkne
    have hkl' : lowerBytes k = k := hkl
    simp only [List.map_cons, List.nodup_cons] at hnodup
    have hlegrest : ∀ p ∈ rest, validUtf8 p.1 = true ∧ validUtf8 p.2 = true ∧
        p.1 ≠ [] ∧ lowerBytes p.1 = p.1 :=
      fun p hp => hleg p (List.mem_cons_of_mem _ hp)
    have hfreshrest : ∀ p ∈ rest,
        (acc ++ [(k, v)]).any (fun q => q.1 = p.1) = false := by
      intro p hp
      have h1 := hfresh p (List.mem_cons_of_mem _ hp)
      have hk_ne : ¬ (k = p.1) := by
        intro heq
        exact hnodup.1 (heq ▸ List.mem_map_of_mem Prod.fst hp)
      simp [List.any_append, h1, hk_ne]
    have hkey : insertOpt acc k v = acc ++ [(k, v)] :=
      insertOpt_fresh acc k v (hfresh (k, v) (by simp))
    show parseOptionPairs (k :: v :: (pairFields rest ++ [[]])) acc = _
    simp only [parseOptionPairs, hku', hvu', if_true, hkl', if_neg hkne', hkey]
    rw [ih (acc ++ [(k, v)]) hlegrest hnodup.2 hfreshrest]
    simp

/-- Decoding an encoded RRQ/WRQ with a legal header and options recovers the
packet exactly (same option list, since the parse loop re-inserts the pairs
in encoding order). -/
theorem parse_request_roundtrip (f m : ByteStr) (o : List (ByteStr × ByteStr))
    (op : Nat) (is_rrq : Bool)
    (hfn : nulFree f = true) (hfu : validUtf8 f = true) (hfne : f ≠ [])
    (hmn : nulFree m = true) (hmu : validUtf8 m = true) (hml : lowerBytes m = m)
    (ho : legalOptions o) :
    parse_request (encode_request op f m o) is_rrq =
      .ok (if is_rrq then .RRQ f m o else .WRQ f m o) := by
  have hdrop : (encode_request op f m o).drop 2 =
      f ++ 0 :: (m ++ 0 :: encodeOptions o) := by
    simp [encode_request, be16]
  have hsplit : splitOnZero ((encode_request op f m o).drop 2) =
      f :: m :: (pairFields o ++ [[]]) := by
    rw [hdrop, splitOnZero_append f _ hfn, splitOnZero_append m _ hmn,
      splitOnZero_encodeOptions o
        (fun p hp => ⟨(ho.1 p hp).1, (ho.1 p hp).2.2.2.2.1⟩)]
  have hopts : parseOptionPairs (pairFields o ++ [[]]) [] = .ok o := by
    have := parseOptionPairs_encode o []
      (fun p hp => ⟨(ho.1 p hp).2.1, (ho.1 p hp).2.2.2.2.2, (ho.1 p hp).2.2.1,
        (ho.1 p hp).2.2.2.1⟩)
      ho.2 (fun p _ => rfl)
    simpa using this
  simp only [parse_request, hsplit]
  simp [hfu, hmu, hml, hfne, hopts]

theorem be16_inv (b : Nat) (h : b < 65536) :
    fromBe16 (b / 256 % 256) (b % 256) = b := by
  have hlt : b / 256 < 256 := by omega
  rw [fromBe16, Nat.mod_eq_of_lt hlt]
  omega

theorem findIdx_nul_append (m : List Nat) (hm : nulFree m = true) :
    (m ++ [0]).findIdx (fun b => b = 0) = m.length := by
  induction m with
  | nil => rfl
  | cons b rest ih =>
    simp only [nulFree, List.all_cons, Bool.and_eq_true, decide_eq_true_eq] at hm
    simp only [List.cons_append, List.findIdx_cons]
    have : (decide (b = 0)) = false := by simp [hm.1]
    rw [this]
    simp only [cond_false]
    rw [ih hm.2]
    rfl

/-- C2 (amended): decoding the encoding of a legal packet whose RRQ/WRQ
filename is non-empty yields a packet equal to it up to option ordering
(here: literally equal, hence a permutation of the option pairs). -/
theorem packet_roundtrip (p : Packet) (hp : legalPacket p) (hf : hasFilename p) :
    ∃ q, Packet.from_bytes (Packet.to_bytes p) = .ok q ∧ packetEquiv q p := by
  cases p with
  | RRQ f m o =>
    obtain ⟨h1, h2, h3, h4, h5, h6⟩ := hp
    refine ⟨.RRQ f m o, ?_, rfl, rfl, List.Perm.refl o⟩
    have hform : Packet.to_bytes (.RRQ f m o) =
        0 :: 1 :: (f ++ [0] ++ m ++ [0] ++ encodeOptions o) := by
      simp [Packet.to_bytes, encode_request, be16]
    have hpr : parse_request (Packet.to_bytes (.RRQ f m o)) true =
        .ok (.RRQ f m o) := by
      show parse_request (encode_request 1 f m o) true = _
      rw [parse_request_roundtrip f m o 1 true h1 h2 hf h3 h4 h5 h6]
      rfl
    rw [← hpr, hform]
    rw [← hform]
    simp only [hform, Packet.from_bytes, fromBe16, List.getD]
    norm_num
  | WRQ f m o =>
    obtain ⟨h1, h2, h3, h4, h5, h6⟩ := hp
    refine ⟨.WRQ f m o, ?_, rfl, rfl, List.Perm.refl o⟩
    have hform : Packet.to_bytes (.WRQ f m o) =
        0 :: 2 :: (f ++ [0] ++ m ++ [0] ++ encodeOptions o) := by
      simp [Packet.to_bytes, encode_request, be16]
    have hpr : parse_request (Packet.to_bytes (.WRQ f m o)) false =
        .ok (.WRQ f m o) := by
      show parse_request (encode_request 2 f m o) false = _
      rw [parse_request_roundtrip f m o 2 false h1 h2 hf h3 h4 h5 h6]
      rfl
    rw [← hpr]
    simp only [hform, Packet.from_bytes, fromBe16, List.getD]
    norm_num
  | DATA b d =>
    refine ⟨.DATA b d, ?_, rfl, rfl⟩
    have hform : Packet.to_bytes (.DATA b d) =
        0 :: 3 :: (b / 256 % 256) :: (b % 256) :: d := by
      simp [Packet.to_bytes, be16]
    rw [hform]
    simp only [Packet.from_bytes, parse_data, fromBe16, List.getD]
    norm_num
    rw [show (b / 256 % 256) * 256 + b % 256 = b from be16_inv b hp]
    rw [if_neg (show ¬ (List.length d + 1 + 1 + 1 + 1 < 2) by omega),
      if_neg (show ¬ (List.length d + 1 + 1 + 1 + 1 < 4) by omega)]
  | ACK b =>
    refine ⟨.ACK b, ?_, rfl⟩
    have hform : Packet.to_bytes (.ACK b) =
        [0, 4, b / 256 % 256, b % 256] := by
      simp [Packet.to_bytes, be16]
    rw [hform]
    simp only [Packet.from_bytes, parse_ack, fromBe16, List.getD]
    norm_num
    rw [show (b / 256 % 256) * 256 + b % 256 = b from be16_inv b hp]
  | ERROR c msg =>
    obtain ⟨h1, h2, h3⟩ := hp
    refine ⟨.ERROR c msg, ?_, rfl, rfl⟩
    have hform : Packet.to_bytes (.ERROR c msg) =
        0 :: 5 :: (c / 256 % 256) :: (c % 256) :: (msg ++ [0]) := by
      simp [Packet.to_bytes, be16]
    rw [hform]
    simp only [Packet.from_bytes, parse_error, fromBe16, List.getD]
    norm_num
    rw [show (c / 256 % 256) * 256 + c % 256 = c from be16_inv c h1]
    rw [findIdx_nul_append msg h2]
    rw [List.take_left]
    rw [from_utf8_lossy_of_valid msg h3]
    rw [if_neg (show ¬ (List.length msg + 1 + 1 + 1 + 1 + 1 < 2) by omega),
      if_neg (show ¬ (List.length msg + 1 + 1 + 1 + 1 + 1 < 5) by omega)]
  | OACK o =>
    refine ⟨.OACK o, ?_, List.Perm.refl o⟩
    have hform : Packet.to_bytes (.OACK o) = 0 :: 6 :: encodeOptions o := by
      simp [Packet.to_bytes, be16]
    have hsplit : splitOnZero ((0 :: 6 :: encodeOptions o).drop 2) =
        pairFields o ++ [[]] := by
      simp only [List.drop]
      exact splitOnZero_encodeOptions o
        (fun p hp' => ⟨(hp.1 p hp').1, (hp.1 p hp').2.2.2.2.1⟩)
    have hopts : parseOptionPairs (pairFields o ++ [[]]) [] = .ok o := by
      have := parseOptionPairs_encode o []
        (fun p hp' => ⟨(hp.1 p hp').2.1, (hp.1 p hp').2.2.2.2.2,
          (hp.1 p hp').2.2.1, (hp.1 p hp').2.2.2.1⟩)
        hp.2 (fun p _ => rfl)
      simpa using this
    rw [hform]
    simp only [Packet.from_bytes, parse_oack, fromBe16, List.getD, hsplit, hopts]
    norm_num

/-- C2 counterexample: the RRQ with empty filename, empty options and mode
"octet" is legal per the claim's side conditions (fields NUL-free, mode and
option keys lowercase, option keys non-empty), yet decoding its encoding
fails with "empty filename" instead of returning the packet. -/
theorem packet_roundtrip_claim_counterexample :
    legalPacket (Packet.RRQ [] [111, 99, 116, 101, 116] []) ∧
    Packet.from_bytes (Packet.to_bytes (Packet.RRQ [] [111, 99, 116, 101, 116] [])) =
      .error "empty filename" := by
  constructor
  · constructor
    · decide
    · exact ⟨by decide, by decide, by decide, by decide, by simp [legalOptions], by simp⟩
  · rfl

/-- Witness for C2's amended round-trip at `RRQ "a" "octet" {blksize: 8192}`. -/
theorem packet_roundtrip_witness :
    ∃ q, Packet.from_bytes (Packet.to_bytes (Packet.RRQ [97] [111, 99, 116, 101, 116]
        [([98, 108, 107, 115, 105, 122, 101], [56, 49, 57, 50])])) = .ok q ∧
      packetEquiv q (Packet.RRQ [97] [111, 99, 116, 101, 116]
        [([98, 108, 107, 115, 105, 122, 101], [56, 49, 57, 50])]) :=
  packet_roundtrip _
    (by refine ⟨by decide, by decide, by decide, by decide, by decide, ?_, by simp⟩
        intro p hp
        simp only [List.mem_singleton] at hp
        subst hp
        exact ⟨by decide, by decide, by decide, by decide, by decide, by decide⟩)
    (by simp [hasFilename])

theorem parseOptionPairs_invalid :
    ∀ (l : List ByteStr) (acc : List (ByteStr × ByteStr)),
    (∃ s ∈ checkedOptionFields l, validUtf8 s = false) →
    ∃ e, parseOptionPairs l acc = .error e
  | [], _ => by simp [checkedOptionFields]
  | [x], _ => by simp [checkedOptionFields]
  | k :: v :: rest, acc => by
    intro h
    by_cases hk : validUtf8 k = true
    · by_cases hv : validUtf8 v = true
      · obtain ⟨s, hs, hsv⟩ := h
        simp only [checkedOptionFields, List.mem_cons] at hs
        rcases hs with rfl | rfl | hs
        · simp [hsv] at hk
        · simp [hsv] at hv
        · have hrec := parseOptionPairs_invalid rest
            (if lowerBytes k = [] then acc else insertOpt acc (lowerBytes k) v)
            ⟨s, hs, hsv⟩
          rw [parseOptionPairs, if_pos hk, if_pos hv]
          exact hrec
      · exact ⟨_, by rw [parseOptionPairs, if_pos hk, if_neg hv]⟩
    · exact ⟨_, by rw [parseOptionPairs, if_neg hk]⟩

theorem parse_request_invalid (buf : List Nat) (is_rrq : Bool)
    (h : validUtf8 ((splitOnZero (buf.drop 2)).getD 0 []) = false ∨
         validUtf8 ((splitOnZero (buf.drop 2)).getD 1 []) = false ∨
         ∃ s ∈ checkedOptionFields ((splitOnZero (buf.drop 2)).drop 2),
           validUtf8 s = false) :
    ∃ e, parse_request buf is_rrq = .error e := by
  simp only [parse_request]
  by_cases hlen : (splitOnZero (buf.drop 2)).length < 2
  · rw [if_pos hlen]; exact ⟨_, rfl⟩
  · rw [if_neg hlen]
    by_cases h0 : validUtf8 ((splitOnZero (buf.drop 2)).getD 0 []) = true
    · rw [if_pos h0]
      by_cases h1 : validUtf8 ((splitOnZero (buf.drop 2)).getD 1 []) = true
      · rw [if_pos h1]
        rcases h with hbad | hbad | hbad
        · rw [h0] at hbad; simp at hbad
        · rw [h1] at hbad; simp at hbad
        · by_cases hemp : (splitOnZero (buf.drop 2)).getD 0 [] = []
          · rw [if_pos hemp]; exact ⟨_, rfl⟩
          · rw [if_neg hemp]
            obtain ⟨e, he⟩ :=
              parseOptionPairs_invalid ((splitOnZero (buf.drop 2)).drop 2) [] hbad
            rw [he]
            exact ⟨e, rfl⟩
      · rw [if_neg h1]; exact ⟨_, rfl⟩
    · rw [if_neg h0]; exact ⟨_, rfl⟩

/-- C10: an RRQ/WRQ/OACK buffer fails to decode whenever one of the fields
the parser validates (filename, mode, or any option key/value in a complete
pair) is not valid UTF-8; an ERROR buffer of length at least 5 always
decodes (the message is decoded lossily). -/
theorem decode_utf8_sensitivity :
    (∀ buf : List Nat, 2 ≤ buf.length →
      (fromBe16 (buf.getD 0 0) (buf.getD 1 0) = 1 ∨
       fromBe16 (buf.getD 0 0) (buf.getD 1 0) = 2) →
      (validUtf8 ((splitOnZero (buf.drop 2)).getD 0 []) = false ∨
       validUtf8 ((splitOnZero (buf.drop 2)).getD 1 []) = false ∨
       ∃ s ∈ checkedOptionFields ((splitOnZero (buf.drop 2)).drop 2),
         validUtf8 s = false) →
      ∃ e, Packet.from_bytes buf = .error e) ∧
    (∀ buf : List Nat, 2 ≤ buf.length →
      fromBe16 (buf.getD 0 0) (buf.getD 1 0) = 6 →
      (∃ s ∈ checkedOptionFields (splitOnZero (buf.drop 2)),
        validUtf8 s = false) →
      ∃ e, Packet.from_bytes buf = .error e) ∧
    (∀ buf : List Nat, 5 ≤ buf.length →
      fromBe16 (buf.getD 0 0) (buf.getD 1 0) = 5 →
      ∃ p, Packet.from_bytes buf = .ok p) := by
  refine ⟨?_, ?_, ?_⟩
  · intro buf hlen hop hbad
    have hnl : ¬ (buf.length < 2) := by omega
    rcases hop with h1 | h2
    · have hdis : Packet.from_bytes buf = parse_request buf true := by
        simp only [Packet.from_bytes]
        rw [if_neg hnl, h1]
        norm_num
      rw [hdis]
      exact parse_request_invalid buf true hbad
    · have hdis : Packet.from_bytes buf = parse_request buf false := by
        simp only [Packet.from_bytes]
        rw [if_neg hnl, h2]
        norm_num
      rw [hdis]
      exact parse_request_invalid buf false hbad
  · intro buf hlen hop hbad
    have hnl : ¬ (buf.length < 2) := by omega
    have hdis : Packet.from_bytes buf = parse_oack buf := by
      simp only [Packet.from_bytes]
      rw [if_neg hnl, hop]
      norm_num
    rw [hdis]
    simp only [parse_oack]
    obtain ⟨e, he⟩ := parseOptionPairs_invalid (splitOnZero (buf.drop 2)) [] hbad
    rw [he]
    exact ⟨e, rfl⟩
  · intro buf hlen hop
    have hnl : ¬ (buf.length < 2) := by omega
    have hdis : Packet.from_bytes buf = parse_error buf := by
      simp only [Packet.from_bytes]
      rw [if_neg hnl, hop]
      norm_num
    rw [hdis]
    rw [parse_error, if_neg (show ¬ (buf.length < 5) by omega)]
    exact ⟨_, rfl⟩

/-- Witness for C10 at three concrete buffers: an RRQ whose filename field
is the ill-formed byte `0xFF`, an OACK whose option key is `0xFF`, and an
ERROR packet whose message byte `0xFF` is decoded lossily. -/
theorem decode_utf8_sensitivity_witness :
    (∃ e, Packet.from_bytes [0, 1, 255, 0] = .error e) ∧
    (∃ e, Packet.from_bytes [0, 6, 255, 0, 97, 0] = .error e) ∧
    (∃ p, Packet.from_bytes [0, 5, 0, 1, 255] = .ok p) :=
  ⟨decode_utf8_sensitivity.1 [0, 1, 255, 0] (by decide) (by decide)
      (by left; decide),
   decode_utf8_sensitivity.2.1 [0, 6, 255, 0, 97, 0] (by decide) (by decide)
      (by decide),
   decode_utf8_sensitivity.2.2 [0, 5, 0, 1, 255] (by decide) (by decide)⟩

-- ---------------------------------------------------------------------------
-- Path sanitizer (src/server.rs:572-630)
-- ---------------------------------------------------------------------------

/-- The filesystem view `sanitize_path` consults: existence
(`Path::exists`) and canonicalization (`Path::canonicalize`, `none` models
an `Err`).  A path is its list of components below an implicit root; the
empty list is the root, `Path::parent` is `dropLast` (failing at the
root), and `Path::starts_with` is component-list prefix. -/
structure Fs where
  pathExists : List String → Bool
  canonicalize : List String → Option (List String)

/-- Sanitizer failures (the `anyhow!` messages of src/server.rs:572-630). -/
inductive SanErr where
  | absolutePath
  | traversal
  | invalidFilename
  | cantCanonicalizeDir
  | cantCanonicalizePath
  | cantCanonicalizeAncestor
  | escape
deriving DecidableEq

/-- Model of `filename.replace('\\', "/")`: a single-char pattern replace is a
character map. -/
def normalizeSlashes (cs : List Char) : List Char :=
  cs.map (fun c => if c = '\\' then '/' else c)

/-- Rust `str::split(sep)` over chars: `n` separators yield `n + 1` pieces
(model of the iterator the sanitizer consumes; same shape as the byte-level
`splitOnZero`). -/
def splitOnChar (sep : Char) : List Char → List (List Char)
  | [] => [[]]
  | c :: rest =>
    if c = sep then [] :: splitOnChar sep rest
    else
      match splitOnChar sep rest with
      | f :: fs => (c :: f) :: fs
      | [] => [[c]]

/-- The components of `normalized.split('/')` as strings. -/
def splitSlash (cs : List Char) : List String :=
  (splitOnChar '/' cs).map (fun l => ⟨l⟩)

/-- Model of `normalized.starts_with('/')`. -/
def startsWithSlash : List Char → Bool
  | c :: _ => c = '/'
  | [] => false

/-- The cleaned component list of src/server.rs:588-591: split on `/`,
dropping empty and `.` components. -/
def cleanComponents (filename : String) : List String :=
  (splitSlash (normalizeSlashes filename.data)).filter
    (fun c => c ≠ "" && c ≠ ".")

/-- The `while let Some(a) = ancestor` loop of src/server.rs:615-627: walk
up the parent chain of the candidate until an existing ancestor is found,
canonicalize it and require the canonical-root prefix; return the (still
non-canonical) candidate on success.  `a.parent()` yields `none` at the
root (the empty component list), ending the loop in the `escape` error.
The structural fuel (`a.length + 1` at the entry point below) is always
sufficient, since every step shortens the path by one component; the
fuel-0 branch is unreachable. -/
def ancestorWalkFuel (fs : Fs) (canonical_dir candidate : List String) :
    Nat → List String → Except SanErr (List String)
  | 0, _ => .error .escape
  | n + 1, a =>
    if fs.pathExists a then
      match fs.canonicalize a with
      | none => .error .cantCanonicalizeAncestor
      | some canonical_ancestor =>
        if canonical_dir.isPrefixOf canonical_ancestor then .ok candidate
        else .error .escape
    else if a = [] then .error .escape
    else ancestorWalkFuel fs canonical_dir candidate n a.dropLast

/-- The ancestor-containment walk, entered at the candidate's parent. -/
def ancestorWalk (fs : Fs) (canonical_dir candidate a : List String) :
    Except SanErr (List String) :=
  ancestorWalkFuel fs canonical_dir candidate (a.length + 1) a

/-- The first existing path on the parent chain starting at `a` (the
ancestor the loop of src/server.rs:615-627 canonicalizes), if any. -/
def deepestExistingAncestor (fs : Fs) (a : List String) :
    Option (List String) :=
  if fs.pathExists a then some a
  else if a = [] then none
  else deepestExistingAncestor fs a.dropLast
termination_by a.length
decreasing_by
  rename_i h1 h2
  have : 0 < a.length := List.length_pos.mpr h2
  simp [List.length_dropLast]
  omega

/-- Model of `sanitize_path` (src/server.rs:572-630). -/
def sanitize_path (fs : Fs) (dir : List String) (filename : String) :
    Except SanErr (List String) :=
  let normalized := normalizeSlashes filename.data
  if startsWithSlash normalized then .error .absolutePath
  else if (splitSlash normalized).any (fun c => c = "..") then .error .traversal
  else
    let clean := (splitSlash normalized).filter (fun c => c ≠ "" && c ≠ ".")
    if clean = [] then .error .invalidFilename
    else
      let candidate := dir ++ clean
      match fs.canonicalize dir with
      | none => .error .cantCanonicalizeDir
      | some canonical_dir =>
        if fs.pathExists candidate then
          match fs.canonicalize candidate with
          | none => .error .cantCanonicalizePath
          | some canonical =>
            if canonical_dir.isPrefixOf canonical then .ok canonical
            else .error .escape
        else
          if candidate = [] then .error .escape
          else ancestorWalk fs canonical_dir candidate candidate.dropLast

theorem ancestorWalkFuel_ok (fs : Fs) (cd cand : List String) :
    ∀ (fuel : Nat) (a p : List String), a.length < fuel →
      ancestorWalkFuel fs cd cand fuel a = .ok p →
      p = cand ∧ ∃ b, deepestExistingAncestor fs a = some b ∧
        ∃ cb, fs.canonicalize b = some cb ∧ cd.isPrefixOf cb = true := by
  intro fuel
  induction fuel with
  | zero => intro a p hlen h; omega
  | succ f ih =>
    intro a p hlen h
    rw [ancestorWalkFuel] at h
    split at h
    next hex =>
      rw [deepestExistingAncestor, if_pos hex]
      split at h
      next => simp at h
      next cb hcb =>
        split at h
        next hpre =>
          simp only [Except.ok.injEq] at h
          exact ⟨h.symm, a, rfl, cb, hcb, hpre⟩
        next => simp at h
    next hex =>
      rw [deepestExistingAncestor, if_neg hex]
      split at h
      next => simp at h
      next hne =>
        rw [if_neg hne]
        have hlt : a.dropLast.length < f := by
          have : 0 < a.length := List.length_pos.mpr hne
          simp [List.length_dropLast]
          omega
        exact ih a.dropLast p hlt h

theorem ancestorWalk_ok (fs : Fs) (cd cand : List String)
    (a p : List String) (h : ancestorWalk fs cd cand a = .ok p) :
    p = cand ∧ ∃ b, deepestExistingAncestor fs a = some b ∧
      ∃ cb, fs.canonicalize b = some cb ∧ cd.isPrefixOf cb = true :=
  ancestorWalkFuel_ok fs cd cand (a.length + 1) a p (by omega) h

/-- C1: whenever the sanitizer succeeds, the returned path lies under the
canonicalized served root: the root canonicalizes, and either the candidate
(`dir` joined with the cleaned client components) exists and its
canonicalization starts with the canonical root (the result being that
canonicalization), or it does not exist and the canonicalization of its
deepest existing ancestor starts with the canonical root (the result being
the candidate itself). -/
theorem sanitize_path_containment (fs : Fs) (dir : List String)
    (filename : String) (p : List String)
    (h : sanitize_path fs dir filename = .ok p) :
    ∃ canonical_dir, fs.canonicalize dir = some canonical_dir ∧
      (if fs.pathExists (dir ++ cleanComponents filename) then
        ∃ c, fs.canonicalize (dir ++ cleanComponents filename) = some c ∧
          canonical_dir.isPrefixOf c = true ∧ p = c
      else
        ∃ a, deepestExistingAncestor fs
            ((dir ++ cleanComponents filename).dropLast) = some a ∧
          ∃ ca, fs.canonicalize a = some ca ∧
            canonical_dir.isPrefixOf ca = true ∧
            p = dir ++ cleanComponents filename) := by
  simp only [sanitize_path] at h
  split at h
  next => simp at h
  next =>
    split at h
    next => simp at h
    next =>
      split at h
      next => simp at h
      next =>
        split at h
        next => simp at h
        next canonical_dir hcd =>
          refine ⟨canonical_dir, hcd, ?_⟩
          simp only [cleanComponents]
          split at h
          next hex =>
            rw [if_pos hex]
            split at h
            next => simp at h
            next c hc =>
              split at h
              next hpre =>
                simp only [Except.ok.injEq] at h
                exact ⟨c, hc, hpre, h.symm⟩
              next => simp at h
          next hex =>
            rw [if_neg hex]
            split at h
            next => simp at h
            next hne =>
              obtain ⟨hp, b, hb, cb, hcb, hpre⟩ :=
                ancestorWalk_ok fs canonical_dir _ _ p h
              exact ⟨b, hb, cb, hcb, hpre, hp⟩

/-- Witness for C1 on a two-file filesystem: serving root `root`, existing
file `a.txt`, request "a.txt". -/
theorem sanitize_path_containment_witness :
    ∃ canonical_dir,
      (Fs.mk (fun pth => pth = ["root", "a.txt"] || pth = ["root"])
        (fun pth =>
          if pth = ["root"] then some ["root"]
          else if pth = ["root", "a.txt"] then some ["root", "a.txt"]
          else none)).canonicalize ["root"] = some canonical_dir ∧
      (if (Fs.mk (fun pth => pth = ["root", "a.txt"] || pth = ["root"])
        (fun pth =>
          if pth = ["root"] then some ["root"]
          else if pth = ["root", "a.txt"] then some ["root", "a.txt"]
          else none)).pathExists (["root"] ++ cleanComponents "a.txt") then
        ∃ c, (Fs.mk (fun pth => pth = ["root", "a.txt"] || pth = ["root"])
          (fun pth =>
            if pth = ["root"] then some ["root"]
            else if pth = ["root", "a.txt"] then some ["root", "a.txt"]
            else none)).canonicalize (["root"] ++ cleanComponents "a.txt") = some c ∧
          canonical_dir.isPrefixOf c = true ∧ ["root", "a.txt"] = c
      else
        ∃ a, deepestExistingAncestor
            (Fs.mk (fun pth => pth = ["root", "a.txt"] || pth = ["root"])
              (fun pth =>
                if pth = ["root"] then some ["root"]
                else if pth = ["root", "a.txt"] then some ["root", "a.txt"]
                else none))
            ((["root"] ++ cleanComponents "a.txt").dropLast) = some a ∧
          ∃ ca, (Fs.mk (fun pth => pth = ["root", "a.txt"] || pth = ["root"])
            (fun pth =>
              if pth = ["root"] then some ["root"]
              else if pth = ["root", "a.txt"] then some ["root", "a.txt"]
              else none)).canonicalize a = some ca ∧
            canonical_dir.isPrefixOf ca = true ∧
            ["root", "a.txt"] = ["root"] ++ cleanComponents "a.txt") :=
  sanitize_path_containment
    (Fs.mk (fun pth => pth = ["root", "a.txt"] || pth = ["root"])
      (fun pth =>
        if pth = ["root"] then some ["root"]
        else if pth = ["root", "a.txt"] then some ["root", "a.txt"]
        else none))
    ["root"] "a.txt" ["root", "a.txt"] (by rfl)

-- ---------------------------------------------------------------------------
-- Session engine (src/server.rs) — shared infrastructure
-- ---------------------------------------------------------------------------

/-- Model of `MAX_RETRIES` (src/server.rs:22). -/
def MAX_RETRIES : Nat := 10

/-- Model of `BLOCK_SIZE` (src/tftp_protocol.rs:14). -/
def BLOCK_SIZE : Nat := 512

/-- Model of `MAX_BLKSIZE` (src/tftp_protocol.rs:19). -/
def MAX_BLKSIZE : Nat := 65464

/-- One observation on a session socket: the 500 ms receive deadline
expired, a datagram arrived with these bytes, or `recv` itself failed. -/
inductive RecvEvent where
  | timeout
  | pkt (bytes : List Nat)
  | sockErr (msg : String)
deriving DecidableEq

/-- The `anyhow` error values a session handler can return (rendered to the
event stream by `renderErr`; OS error details carried by some messages are
abstracted to the fixed prefix of the message). -/
inductive SessErr where
  | sanitize (e : SanErr)
  | metadataErr
  | clientErr (code : Nat) (msg : List Nat)
  | malformed (e : String)
  | sock (msg : String)
  | timeoutOack
  | timeoutRetries
  | timeoutData (block : Nat)
deriving DecidableEq

/-- Model of `e.to_string()` for the messages the claims mention; other variants
render their determinable literal part. -/
def renderErr : SessErr → String
  | .sanitize .absolutePath => "absolute paths are not allowed"
  | .sanitize .traversal => "path traversal is not allowed"
  | .sanitize .invalidFilename => "invalid filename"
  | .sanitize .cantCanonicalizeDir => "cannot canonicalize served directory"
  | .sanitize .cantCanonicalizePath => "cannot canonicalize path"
  | .sanitize .cantCanonicalizeAncestor => "cannot canonicalize ancestor"
  | .sanitize .escape => "path escapes served directory"
  | .metadataErr => "cannot read"
  | .clientErr code _ => "client error " ++ toString code
  | .malformed e => e
  | .sock m => m
  | .timeoutOack => "timeout waiting for OACK acknowledgment"
  | .timeoutRetries => "timeout after " ++ toString MAX_RETRIES ++ " retries"
  | .timeoutData b => "timeout waiting for DATA block " ++ toString b

/-- Model of `TransferKind` (src/server.rs:139-142). -/
inductive TransferKind where
  | download
  | upload
deriving DecidableEq

/-- Model of `ServerEvent` (src/server.rs:163-176).  `Log` text, the peer address,
the filename and the start instant are display-only and omitted;
`TransferStarted` keeps the `TransferInfo` fields the claims speak about. -/
inductive Ev where
  | log
  | started (id : Nat) (kind : TransferKind) (total_bytes : Nat)
      (size_known : Bool)
  | progress (id : Nat) (transferred : Nat) (total_bytes : Nat)
  | complete (id : Nat)
  | failed (id : Nat) (error : String)
deriving DecidableEq

/-- The `DATA` packet bytes `handle_rrq` builds inline
(src/server.rs:379-382). -/
def dataBytes (block_num : Nat) (payload : List Nat) : List Nat :=
  be16 3 ++ be16 block_num ++ payload

/-- Model of `Packet::ACK { block_num }.to_bytes()`. -/
def ackBytes (block_num : Nat) : List Nat := Packet.to_bytes (.ACK block_num)

/-- Result of a send-and-wait-for-ACK loop. -/
inductive AwaitOut where
  | got (rest : List RecvEvent)
  | failed (e : SessErr)
  | starved
deriving DecidableEq

/-- The send/wait loops of `handle_rrq` (OACK wait, src/server.rs:341-363,
with `want = 0`, and DATA wait, src/server.rs:384-406): each iteration
sends `pktBytes`, then waits; a matching ACK breaks, an ERROR or a
malformed datagram or a socket error returns `Err` (note the `?` on
`Packet::from_bytes`), anything else re-enters the loop (resending), and a
timeout increments the retry counter, failing with `tErr` once it exceeds
`MAX_RETRIES`.  Returns the bytes sent and the outcome; `starved` means the
modeled event supply ran out while the code would still be waiting. -/
def awaitAck (pktBytes : List Nat) (want : Nat) (tErr : SessErr) :
    List RecvEvent → Nat → List (List Nat) × AwaitOut
  | [], _ => ([pktBytes], .starved)
  | .timeout :: rest, retries =>
    if retries + 1 > MAX_RETRIES then ([pktBytes], .failed tErr)
    else
      let r := awaitAck pktBytes want tErr rest (retries + 1)
      (pktBytes :: r.1, r.2)
  | .sockErr m :: _, _ => ([pktBytes], .failed (.sock m))
  | .pkt bytes :: rest, retries =>
    match Packet.from_bytes bytes with
    | .error e => ([pktBytes], .failed (.malformed e))
    | .ok (.ACK bn) =>
      if bn = want then ([pktBytes], .got rest)
      else
        let r := awaitAck pktBytes want tErr rest retries
        (pktBytes :: r.1, r.2)
    | .ok (.ERROR c m) => ([pktBytes], .failed (.clientErr c m))
    | .ok _ =>
      let r := awaitAck pktBytes want tErr rest retries
      (pktBytes :: r.1, r.2)

/-- Session outcome: `Ok(())`, `Err(e)`, or still running when the modeled
inputs (events / fuel) ran out. -/
inductive SessOutcome where
  | completed
  | err (e : SessErr)
  | starved
deriving DecidableEq

/-- Result of the RRQ block loop: progress events, bytes sent, outcome. -/
structure RrqLoopRes where
  events : List Ev
  sends : List (List Nat)
  out : SessOutcome
deriving DecidableEq

/-- The streaming loop of `handle_rrq` (src/server.rs:374-420): read the
next `blksize` bytes (modeled by `bytes.take blksize` of the not-yet-sent
suffix), send `DATA{block_num}` and await its ACK via `awaitAck`, emit a
progress event, stop after a short block, else advance with 16-bit
wrap-around.  `fuel` bounds the number of blocks only (each block consumes
at least one receive event; `starved` stands for a still-running loop). -/
def rrqBlocks (id total_bytes blksize : Nat) :
    List Nat → Nat → Nat → List RecvEvent → Nat → RrqLoopRes
  | _, _, _, _, 0 => ⟨[], [], .starved⟩
  | bytes, block_num, transferred, events, fuel + 1 =>
    let payload := bytes.take blksize
    let pkt_bytes := dataBytes block_num payload
    let a := awaitAck pkt_bytes block_num .timeoutRetries events 0
    match a.2 with
    | .failed e => ⟨[], a.1, .err e⟩
    | .starved => ⟨[], a.1, .starved⟩
    | .got rest =>
      let transferred' := transferred + payload.length
      let ev := Ev.progress id transferred' total_bytes
      if payload.length < blksize then ⟨[ev], a.1, .completed⟩
      else
        let r := rrqBlocks id total_bytes blksize (bytes.drop blksize)
          ((block_num + 1) % 65536) transferred' rest fuel
        ⟨ev :: r.events, a.1 ++ r.sends, r.out⟩

-- ---------------------------------------------------------------------------
-- Option negotiation (src/server.rs:185-205)
-- ---------------------------------------------------------------------------

/-- Model of `HashMap::get` on the string options map. -/
def getStr (m : List (String × String)) (k : String) : Option String :=
  (m.find? (fun p => p.1 = k)).map (fun p => p.2)

/-- Model of `HashMap::contains_key`. -/
def containsStr (m : List (String × String)) (k : String) : Bool :=
  m.any (fun p => p.1 = k)

/-- Model of `HashMap::insert` on the string options map. -/
def insertStr (m : List (String × String)) (k v : String) :
    List (String × String) :=
  if m.any (fun p => p.1 = k) then
    m.map (fun p => if p.1 = k then (k, v) else p)
  else m ++ [(k, v)]

/-- Model of `str::parse::<usize>()`: optional leading `+`, then one or more ASCII
digits, rejecting values that overflow 64-bit `usize`. -/
def digitsVal (cs : List Char) : Option Nat :=
  if cs ≠ [] && cs.all Char.isDigit then
    let v := cs.foldl (fun acc c => acc * 10 + (c.toNat - 48)) 0
    if v < 2 ^ 64 then some v else none
  else none

/-- Model of `val.parse::<usize>()`. -/
def parseUsize (s : String) : Option Nat :=
  match s.data with
  | [] => none
  | '+' :: rest => digitsVal rest
  | cs => digitsVal cs

/-- Model of `negotiate_options` (src/server.rs:185-205); `os_max` is the cached
result of the kernel datagram-size probe (`max_blksize()`), an input of the
model since the probe is I/O. -/
def negotiate_options (client_options : List (String × String))
    (os_max : Nat) : Nat × List (String × String) :=
  let step1 :=
    match getStr client_options "blksize" with
    | some val =>
      match parseUsize val with
      | some requested =>
        if 8 ≤ requested && requested ≤ MAX_BLKSIZE then
          let b := min requested os_max
          (b, insertStr [] "blksize" (toString b))
        else (BLOCK_SIZE, ([] : List (String × String)))
      | none => (BLOCK_SIZE, ([] : List (String × String)))
    | none => (BLOCK_SIZE, ([] : List (String × String)))
  let acked :=
    if containsStr client_options "tsize" then insertStr step1.2 "tsize" "0"
    else step1.2
  (step1.1, acked)

-- ---------------------------------------------------------------------------
-- RRQ / WRQ handlers and the listener's error wrapper
-- ---------------------------------------------------------------------------

/-- UTF-8 encoding of one scalar (to turn the negotiated string options
back into wire bytes for the OACK). -/
def utf8EncodeChar (c : Char) : List Nat :=
  let n := c.toNat
  if n < 128 then [n]
  else if n < 2048 then [192 + n / 64, 128 + n % 64]
  else if n < 65536 then [224 + n / 4096, 128 + n / 64 % 64, 128 + n % 64]
  else [240 + n / 262144, 128 + n / 4096 % 64, 128 + n / 64 % 64, 128 + n % 64]

/-- A Rust `String`'s UTF-8 bytes. -/
def strToBytes (s : String) : List Nat := (s.data.map utf8EncodeChar).flatten

/-- String option map → wire option map. -/
def optsToBytes (m : List (String × String)) : List (ByteStr × ByteStr) :=
  m.map (fun p => (strToBytes p.1, strToBytes p.2))

/-- Result of a session handler run. -/
structure SessionRes where
  events : List Ev
  sends : List (List Nat)
  out : SessOutcome
deriving DecidableEq

/-- The tail of `handle_rrq` after `TransferStarted` was emitted
(src/server.rs:334-426): consume the OACK-wait outcome `phase1`, then run
the block loop and, on success, emit `TransferComplete` and a log line. -/
def rrqAfterStart (id total_bytes blksize : Nat) (evs0 : List Ev)
    (phase1 : List (List Nat) × AwaitOut) (fileBytes : List Nat)
    (fuel : Nat) : SessionRes :=
  match phase1.2 with
  | .failed e => ⟨evs0, phase1.1, .err e⟩
  | .starved => ⟨evs0, phase1.1, .starved⟩
  | .got rest =>
    let r := rrqBlocks id total_bytes blksize fileBytes 1 0 rest fuel
    match r.out with
    | .completed =>
      ⟨evs0 ++ r.events ++ [.complete id, .log], phase1.1 ++ r.sends,
        .completed⟩
    | o => ⟨evs0 ++ r.events, phase1.1 ++ r.sends, o⟩

/-- Model of `handle_rrq` (src/server.rs:288-427).  Inputs abstracting the
environment: `metadata` is `tokio::fs::metadata(path).map(|m| m.len())`
(`none` = error), `fileBytes` the bytes successive `file.read` calls
deliver, `os_max` the probed kernel cap, `events` the datagrams/timeouts
seen on the per-session socket.  Socket binding, channel sends and
`File::open` after a successful `metadata` are modeled as infallible. -/
def handle_rrq (id : Nat) (fs : Fs) (dir : List String) (filename : String)
    (options : List (String × String)) (metadata : Option Nat)
    (fileBytes : List Nat) (os_max : Nat) (events : List RecvEvent)
    (fuel : Nat) : SessionRes :=
  match sanitize_path fs dir filename with
  | .error e => ⟨[], [], .err (.sanitize e)⟩
  | .ok _ =>
    match metadata with
    | none => ⟨[], [], .err .metadataErr⟩
    | some total_bytes =>
      let neg := negotiate_options options os_max
      let blksize := neg.1
      let oack_options :=
        if containsStr neg.2 "tsize" then
          insertStr neg.2 "tsize" (toString total_bytes)
        else neg.2
      let evs0 : List Ev := [.log, .started id .download total_bytes true]
      let oackBytes := Packet.to_bytes (.OACK (optsToBytes oack_options))
      let phase1 :=
        if oack_options.isEmpty then (([] : List (List Nat)), AwaitOut.got events)
        else awaitAck oackBytes 0 .timeoutOack events 0
      rrqAfterStart id total_bytes blksize evs0 phase1 fileBytes fuel

/-- The listener's wrapper around a spawned session task
(src/server.rs:249-254 and 261-266): an `Err` from the handler becomes a
`TransferFailed { id, error }` event followed by a log line. -/
def wrapTask (id : Nat) (hev : List Ev) (hout : SessOutcome) :
    List Ev × SessOutcome :=
  match hout with
  | .err e => (hev ++ [.failed id (renderErr e), .log], .err e)
  | o => (hev, o)

/-- A spawned RRQ session task as the listener runs it. -/
def rrqTask (id : Nat) (fs : Fs) (dir : List String) (filename : String)
    (options : List (String × String)) (metadata : Option Nat)
    (fileBytes : List Nat) (os_max : Nat) (events : List RecvEvent)
    (fuel : Nat) : List Ev × SessOutcome :=
  let r := handle_rrq id fs dir filename options metadata fileBytes os_max
    events fuel
  wrapTask id r.events r.out

/-- Result of the WRQ receive-one-DATA loop. -/
inductive WrqAwaitOut where
  | got (payload : List Nat) (rest : List RecvEvent)
  | failed (e : SessErr)
  | starved
deriving DecidableEq

/-- The inner receive loop of `handle_wrq` (src/server.rs:495-530): wait
for `DATA{expected_block}`; on a duplicate `DATA{expected_block − 1}`
(16-bit wrap) re-ACK it and keep waiting; ERROR, a malformed datagram
(`?` on `Packet::from_bytes`) and socket errors return `Err`; any other
packet is ignored; each timeout bumps the retry counter (failing past
`MAX_RETRIES`) and re-sends the previous ACK.  The counter is NOT reset by
received packets.  Returns the ACKs sent and the outcome. -/
def wrqAwait (expected_block : Nat) :
    List RecvEvent → Nat → List (List Nat) × WrqAwaitOut
  | [], _ => ([], .starved)
  | .timeout :: rest, retries =>
    if retries + 1 > MAX_RETRIES then
      ([], .failed (.timeoutData expected_block))
    else
      let r := wrqAwait expected_block rest (retries + 1)
      (ackBytes ((expected_block + 65535) % 65536) :: r.1, r.2)
  | .sockErr m :: _, _ => ([], .failed (.sock m))
  | .pkt bytes :: rest, retries =>
    match Packet.from_bytes bytes with
    | .error e => ([], .failed (.malformed e))
    | .ok (.DATA bn d) =>
      if bn = expected_block then ([], .got d rest)
      else if bn = (expected_block + 65535) % 65536 then
        let r := wrqAwait expected_block rest retries
        (ackBytes bn :: r.1, r.2)
      else
        wrqAwait expected_block rest retries
    | .ok (.ERROR c m) => ([], .failed (.clientErr c m))
    | .ok _ =>
      wrqAwait expected_block rest retries

/-- Result of the WRQ block loop: progress events, bytes sent, the
payloads written to the destination (chronological), the destination file
contents, outcome. -/
structure WrqLoopRes where
  events : List Ev
  sends : List (List Nat)
  written : List (List Nat)
  file : List Nat
  out : SessOutcome
deriving DecidableEq

/-- The streaming loop of `handle_wrq` (src/server.rs:491-554): receive
`DATA{expected_block}` via `wrqAwait`, append its payload to the file,
ACK it, emit progress (`total_bytes = transferred`), stop after a short
payload, else advance with 16-bit wrap-around.  `fuel` bounds the number
of accepted blocks only. -/
def wrqBlocks (id blksize : Nat) :
    Nat → Nat → List Nat → List RecvEvent → Nat → WrqLoopRes
  | _, _, file, _, 0 => ⟨[], [], [], file, .starved⟩
  | expected_block, transferred, file, events, fuel + 1 =>
    let a := wrqAwait expected_block events 0
    match a.2 with
    | .failed e => ⟨[], a.1, [], file, .err e⟩
    | .starved => ⟨[], a.1, [], file, .starved⟩
    | .got payload rest =>
      let is_last := payload.length < blksize
      let file' := file ++ payload
      let transferred' := transferred + payload.length
      let sends' := a.1 ++ [ackBytes expected_block]
      let ev := Ev.progress id transferred' transferred'
      if is_last then ⟨[ev], sends', [payload], file', .completed⟩
      else
        let r := wrqBlocks id blksize ((expected_block + 1) % 65536)
          transferred' file' rest fuel
        ⟨ev :: r.events, sends' ++ r.sends, payload :: r.written, r.file, r.out⟩

/-- Result of a WRQ handler run; `disk` is the destination file's contents
(`orig` until `File::create` truncates it, then the written bytes). -/
structure WrqRes where
  events : List Ev
  sends : List (List Nat)
  disk : Option (List Nat)
  written : List (List Nat)
  out : SessOutcome
deriving DecidableEq

/-- Model of `handle_wrq` (src/server.rs:433-563).  `orig` is the destination
file's pre-upload contents (`none` = absent).  After a successful
sanitize, the handler sends OACK (if options were negotiated) or `ACK{0}`,
creates missing parent directories, truncates the destination
(`File::create`), and runs the block loop.  Directory creation and file
creation/writes are modeled as infallible. -/
def handle_wrq (id : Nat) (fs : Fs) (dir : List String) (filename : String)
    (options : List (String × String)) (os_max : Nat)
    (orig : Option (List Nat)) (events : List RecvEvent) (fuel : Nat) :
    WrqRes :=
  match sanitize_path fs dir filename with
  | .error e => ⟨[], [], orig, [], .err (.sanitize e)⟩
  | .ok _ =>
    let neg := negotiate_options options os_max
    let blksize := neg.1
    let oack_options := neg.2
    let evs0 : List Ev := [.log, .started id .upload 0 false]
    let initialSend :=
      if oack_options.isEmpty then ackBytes 0
      else Packet.to_bytes (.OACK (optsToBytes oack_options))
    let r := wrqBlocks id blksize 1 0 [] events fuel
    match r.out with
    | .completed =>
      ⟨evs0 ++ r.events ++ [.complete id, .log], initialSend :: r.sends,
        some r.file, r.written, .completed⟩
    | o => ⟨evs0 ++ r.events, initialSend :: r.sends, some r.file,
        r.written, o⟩

/-- A spawned WRQ session task as the listener runs it
(src/server.rs:261-266). -/
def wrqTask (id : Nat) (fs : Fs) (dir : List String) (filename : String)
    (options : List (String × String)) (os_max : Nat)
    (orig : Option (List Nat)) (events : List RecvEvent) (fuel : Nat) :
    List Ev × SessOutcome :=
  let r := handle_wrq id fs dir filename options os_max orig events fuel
  wrapTask id r.events r.out

/-- C6: if the client options carry a "blksize" value parsing to an
integer in `[8, 65464]`, negotiation returns `min(requested, kernel_max)`
and echoes that value under "blksize" in the OACK options; otherwise it
returns exactly 512 and the OACK options carry no "blksize" key. -/
theorem negotiate_options_blksize (opts : List (String × String))
    (os_max : Nat) :
    (∀ v r, getStr opts "blksize" = some v → parseUsize v = some r →
      8 ≤ r → r ≤ 65464 →
      (negotiate_options opts os_max).1 = min r os_max ∧
      getStr (negotiate_options opts os_max).2 "blksize" =
        some (toString (min r os_max))) ∧
    ((¬ ∃ v r, getStr opts "blksize" = some v ∧ parseUsize v = some r ∧
        8 ≤ r ∧ r ≤ 65464) →
      (negotiate_options opts os_max).1 = 512 ∧
      getStr (negotiate_options opts os_max).2 "blksize" = none) := by
  constructor
  · intro v r hv hr h8 h65
    have hcond : (8 ≤ r && r ≤ MAX_BLKSIZE) = true := by
      simp [MAX_BLKSIZE]
      omega
    simp only [negotiate_options, hv, hr, hcond, if_true]
    refine ⟨by simp, ?_⟩
    by_cases ht : containsStr opts "tsize" = true
    · simp [ht, insertStr, getStr]
    · simp [ht, insertStr, getStr]
  · intro hne
    rcases hgs : getStr opts "blksize" with _ | v
    · simp only [negotiate_options, hgs]
      refine ⟨rfl, ?_⟩
      by_cases ht : containsStr opts "tsize" = true
      · simp [ht, insertStr, getStr]
      · simp [ht, getStr]
    · rcases hpu : parseUsize v with _ | r
      · simp only [negotiate_options, hgs, hpu]
        refine ⟨rfl, ?_⟩
        by_cases ht : containsStr opts "tsize" = true
        · simp [ht, insertStr, getStr]
        · simp [ht, getStr]
      · have hcond : ¬ ((8 ≤ r && r ≤ MAX_BLKSIZE) = true) := by
          simp [MAX_BLKSIZE]
          intro h8
          by_contra h65
          exact hne ⟨v, r, hgs, hpu, h8, by omega⟩
        simp only [negotiate_options, hgs, hpu, if_neg hcond]
        refine ⟨by simp [BLOCK_SIZE], ?_⟩
        by_cases ht : containsStr opts "tsize" = true
        · simp [ht, insertStr, getStr]
        · simp [ht, getStr]

/-- Witness for C6 at a 1024-byte request (in range, kernel cap 65464) and
an out-of-range request of 7. -/
theorem negotiate_options_blksize_witness :
    ((negotiate_options [("blksize", "1024")] 65464).1 = min 1024 65464 ∧
      getStr (negotiate_options [("blksize", "1024")] 65464).2 "blksize" =
        some (toString (min 1024 65464))) ∧
    ((negotiate_options [("blksize", "7")] 65464).1 = 512 ∧
      getStr (negotiate_options [("blksize", "7")] 65464).2 "blksize" =
        none) :=
  ⟨(negotiate_options_blksize [("blksize", "1024")] 65464).1 "1024" 1024
      rfl rfl (by omega) (by omega),
   (negotiate_options_blksize [("blksize", "7")] 65464).2
      (by
        rintro ⟨v, r, hv, hr, h8, h65⟩
        rw [show getStr [("blksize", "7")] "blksize" = some "7" from rfl]
          at hv
        injection hv with hv
        subst hv
        rw [show parseUsize "7" = some 7 from rfl] at hr
        injection hr with hr
        omega)⟩

theorem ackBytes_decode (b : Nat) (h : b < 65536) :
    Packet.from_bytes (ackBytes b) = .ok (.ACK b) := by
  have hform : ackBytes b = [0, 4, b / 256 % 256, b % 256] := by
    simp [ackBytes, Packet.to_bytes, be16]
  rw [hform]
  simp only [Packet.from_bytes, parse_ack, fromBe16, List.getD]
  norm_num
  rw [show (b / 256 % 256) * 256 + b % 256 = b from be16_inv b h]

theorem dataBytes_decode (b : Nat) (d : List Nat) (h : b < 65536) :
    Packet.from_bytes (dataBytes b d) = .ok (.DATA b d) := by
  have hform : dataBytes b d = 0 :: 3 :: (b / 256 % 256) :: (b % 256) :: d := by
    simp [dataBytes, be16]
  rw [hform]
  simp only [Packet.from_bytes, parse_data, fromBe16, List.getD]
  norm_num
  rw [show (b / 256 % 256) * 256 + b % 256 = b from be16_inv b h]
  rw [if_neg (show ¬ (List.length d + 1 + 1 + 1 + 1 < 2) by omega),
    if_neg (show ¬ (List.length d + 1 + 1 + 1 + 1 < 4) by omega)]

/-- A two-path filesystem for concrete runs: serving root `root` holding
one file `a.txt`. -/
def demoFs : Fs :=
  ⟨fun pth => pth = ["root", "a.txt"] || pth = ["root"],
   fun pth =>
     if pth = ["root"] then some ["root"]
     else if pth = ["root", "a.txt"] then some ["root", "a.txt"]
     else none⟩

/-- C3 counterexample: after exactly 10 consecutive receive timeouts the
DATA-wait loop of a download session does NOT fail or stop — it performs
an 11th transmission of the same DATA and, when an ACK then arrives,
succeeds (11 sends: the original plus 10 retransmissions). -/
theorem rrq_retry_cap_counterexample :
    awaitAck (dataBytes 1 [7]) 1 .timeoutRetries
        (List.replicate 10 .timeout ++ [.pkt (ackBytes 1)]) 0 =
      (List.replicate 11 (dataBytes 1 [7]), .got []) := by
  rfl

/-- C3 (amended): the download DATA-wait loop fails with
"timeout after 10 retries" only after the 11th consecutive timeout (the
retry counter must exceed `MAX_RETRIES = 10`), having transmitted the DATA
11 times (the original send plus 10 retransmissions); a concrete download
session whose data phase times out 11 times emits exactly
`TransferFailed("timeout after 10 retries")` after its start events. -/
theorem rrq_retry_cap (pktBytes : List Nat) (want : Nat)
    (rest : List RecvEvent) :
    awaitAck pktBytes want .timeoutRetries
        (List.replicate 11 .timeout ++ rest) 0 =
      (List.replicate 11 pktBytes, .failed .timeoutRetries) ∧
    renderErr .timeoutRetries = "timeout after 10 retries" ∧
    (rrqTask 1 demoFs ["root"] "a.txt" [] (some 3) [1, 2, 3] 512
        (List.replicate 11 .timeout) 1).1 =
      [.log, .started 1 .download 3 true,
       .failed 1 "timeout after 10 retries", .log] := by
  refine ⟨?_, rfl, ?_⟩
  · rfl
  · rfl

/-- C5 counterexample: a malformed datagram on a session's socket DOES
terminate the session: both a download session waiting for an ACK and an
upload session waiting for DATA return the propagated decode error
(surfaced as `TransferFailed`) when the one-byte datagram `[0]` arrives. -/
theorem malformed_counterexample :
    (rrqTask 1 demoFs ["root"] "a.txt" [] (some 3) [1, 2, 3] 512
        [.pkt [0]] 1).2 = .err (.malformed "packet too short") ∧
    (wrqTask 1 demoFs ["root"] "up.bin" [] 512 none [.pkt [0]] 1).2 =
      .err (.malformed "packet too short") := by
  constructor
  · rfl
  · rfl

/-- C5 (amended): a datagram that fails to decode (`Packet::from_bytes`
returns `Err`, propagated by `?`) terminates the session: the
download-side ACK wait and the upload-side DATA wait both return the
`MalformedPacket` error, which the session surfaces as `TransferFailed`
(only the listener drops malformed datagrams). -/
theorem malformed_terminates_session (bytes : List Nat) (e : String)
    (h : Packet.from_bytes bytes = .error e) :
    (∀ (pktBytes : List Nat) (want : Nat) (tErr : SessErr)
        (rest : List RecvEvent) (retries : Nat),
      awaitAck pktBytes want tErr (.pkt bytes :: rest) retries =
        ([pktBytes], .failed (.malformed e))) ∧
    (∀ (expected : Nat) (rest : List RecvEvent) (retries : Nat),
      wrqAwait expected (.pkt bytes :: rest) retries =
        ([], .failed (.malformed e))) := by
  constructor
  · intro pktBytes want tErr rest retries
    rw [awaitAck, h]
  · intro expected rest retries
    rw [wrqAwait, h]

/-- Witness for C5's amended statement at the malformed datagram `[0]`. -/
theorem malformed_terminates_session_witness :
    awaitAck [0, 3, 0, 1] 1 .timeoutRetries [.pkt [0]] 0 =
      ([[0, 3, 0, 1]], .failed (.malformed "packet too short")) ∧
    wrqAwait 1 [.pkt [0]] 0 = ([], .failed (.malformed "packet too short")) :=
  ⟨(malformed_terminates_session [0] "packet too short" rfl).1
      [0, 3, 0, 1] 1 .timeoutRetries [] 0,
   (malformed_terminates_session [0] "packet too short" rfl).2 1 [] 0⟩

/-- Adding one socket send in front of a WRQ loop result, all else equal. -/
def prependSend (b : List Nat) (r : WrqLoopRes) : WrqLoopRes :=
  ⟨r.events, b :: r.sends, r.written, r.file, r.out⟩

theorem wrqAwait_dup (e : Nat) (payload : List Nat) (rest : List RecvEvent)
    (retries : Nat) (he : e < 65536) :
    wrqAwait e (.pkt (dataBytes ((e + 65535) % 65536) payload) :: rest)
        retries =
      (ackBytes ((e + 65535) % 65536) :: (wrqAwait e rest retries).1,
       (wrqAwait e rest retries).2) := by
  have hd : (e + 65535) % 65536 < 65536 := Nat.mod_lt _ (by omega)
  have hne : ¬ ((e + 65535) % 65536 = e) := by omega
  rw [wrqAwait, dataBytes_decode ((e + 65535) % 65536) payload hd]
  simp [hne]

/-- C8: in an upload session expecting block `e`, a duplicate
`DATA{e − 1}` (16-bit wrap) only causes `ACK{e − 1}` to be re-sent: the
rest of the run — expected block, transferred counter, progress events,
written payloads and destination file contents — is identical to the run
without the duplicate datagram. -/
theorem wrq_duplicate_data (id blksize e t : Nat) (file payload : List Nat)
    (rest : List RecvEvent) (fuel : Nat) (he : e < 65536) :
    wrqBlocks id blksize e t file
        (.pkt (dataBytes ((e + 65535) % 65536) payload) :: rest) (fuel + 1) =
      prependSend (ackBytes ((e + 65535) % 65536))
        (wrqBlocks id blksize e t file rest (fuel + 1)) := by
  conv_lhs => rw [wrqBlocks]
  conv_rhs => rw [wrqBlocks]
  rw [wrqAwait_dup e payload rest 0 he]
  rcases h : wrqAwait e rest 0 with ⟨s, o⟩
  cases o with
  | failed e' => simp [prependSend]
  | starved => simp [prependSend]
  | got payload' rest' =>
    by_cases hl : payload'.length < blksize
    · simp [prependSend, hl]
    · simp [prependSend, hl]

/-- Witness for C8 at expected block 2, one duplicate `DATA{1}`. -/
theorem wrq_duplicate_data_witness :
    wrqBlocks 1 512 2 5 [1]
        (.pkt (dataBytes ((2 + 65535) % 65536) [9]) :: []) (0 + 1) =
      prependSend (ackBytes ((2 + 65535) % 65536))
        (wrqBlocks 1 512 2 5 [1] [] (0 + 1)) :=
  wrq_duplicate_data 1 512 2 5 [1] [9] [] 0 (by omega)

theorem wrqBlocks_file_eq_written (id blksize : Nat) :
    ∀ (fuel e t : Nat) (file : List Nat) (events : List RecvEvent),
      (wrqBlocks id blksize e t file events fuel).file =
        file ++ (wrqBlocks id blksize e t file events fuel).written.flatten := by
  intro fuel
  induction fuel with
  | zero => intro e t file events; simp [wrqBlocks]
  | succ f ih =>
    intro e t file events
    rw [wrqBlocks]
    rcases h : wrqAwait e events 0 with ⟨s, o⟩
    cases o with
    | failed e' => simp
    | starved => simp
    | got payload rest =>
      by_cases hl : payload.length < blksize
      · simp [hl]
      · simp only [hl, if_neg, if_false]
        rw [ih ((e + 1) % 65536) (t + payload.length) (file ++ payload) rest]
        simp [List.append_assoc]

/-- C9: once an upload session's destination path sanitizes, the
destination is truncated before any DATA is received (a run seeing no
events at all already leaves an empty file in place of the original), the
file always holds exactly the concatenation of the payloads written so far
— in particular when the session fails — and the entire run is independent
of the destination's pre-upload contents (no atomicity on error). -/
theorem wrq_truncates_no_atomicity (id : Nat) (fs : Fs) (dir : List String)
    (filename : String) (options : List (String × String)) (os_max : Nat)
    (p : List String) (hs : sanitize_path fs dir filename = .ok p) :
    (∀ orig fuel,
      (handle_wrq id fs dir filename options os_max orig [] (fuel + 1)).disk =
        some []) ∧
    (∀ orig events fuel e',
      (handle_wrq id fs dir filename options os_max orig events fuel).out =
        .err e' →
      (handle_wrq id fs dir filename options os_max orig events fuel).disk =
        some (handle_wrq id fs dir filename options os_max orig events
          fuel).written.flatten) ∧
    (∀ orig orig' events fuel,
      handle_wrq id fs dir filename options os_max orig events fuel =
        handle_wrq id fs dir filename options os_max orig' events fuel) := by
  refine ⟨?_, ?_, ?_⟩
  · intro orig fuel
    simp [handle_wrq, hs, wrqBlocks, wrqAwait]
  · intro orig events fuel e' hout
    have hfile := wrqBlocks_file_eq_written id
      (negotiate_options options os_max).1 fuel 1 0 [] events
    simp only [handle_wrq, hs] at hout ⊢
    rcases hr : wrqBlocks id (negotiate_options options os_max).1 1 0 []
        events fuel with ⟨evs, snds, written, file, o⟩
    rw [hr] at hfile
    cases o with
    | completed => simp [hr] at hout ⊢
    | err e'' =>
      simp [hr] at hout ⊢
      simpa using hfile
    | starved => simp [hr] at hout
  · intro orig orig' events fuel
    simp only [handle_wrq, hs]

/-- Witness for C9: upload of `up.bin` (non-existent destination) under
`demoFs`. -/
theorem wrq_truncates_no_atomicity_witness :
    (∀ orig fuel,
      (handle_wrq 1 demoFs ["root"] "up.bin" [] 512 orig [] (fuel + 1)).disk =
        some []) ∧
    (∀ orig events fuel e',
      (handle_wrq 1 demoFs ["root"] "up.bin" [] 512 orig events fuel).out =
        .err e' →
      (handle_wrq 1 demoFs ["root"] "up.bin" [] 512 orig events fuel).disk =
        some (handle_wrq 1 demoFs ["root"] "up.bin" [] 512 orig events
          fuel).written.flatten) ∧
    (∀ orig orig' events fuel,
      handle_wrq 1 demoFs ["root"] "up.bin" [] 512 orig events fuel =
        handle_wrq 1 demoFs ["root"] "up.bin" [] 512 orig' events fuel) :=
  wrq_truncates_no_atomicity 1 demoFs ["root"] "up.bin" [] 512
    ["root", "up.bin"] (by rfl)

theorem awaitAck_immediate (pktBytes : List Nat) (want : Nat)
    (tErr : SessErr) (rest : List RecvEvent) (retries : Nat)
    (hw : want < 65536) :
    awaitAck pktBytes want tErr (.pkt (ackBytes want) :: rest) retries =
      ([pktBytes], .got rest) := by
  rw [awaitAck, ackBytes_decode want hw]
  simp

/-- A fully cooperative client: `count` ACKs for consecutive block numbers
starting at `b`, with 16-bit wrap-around. -/
def mkAcks : Nat → Nat → List RecvEvent
  | _, 0 => []
  | b, n + 1 => .pkt (ackBytes b) :: mkAcks ((b + 1) % 65536) n

theorem rrqBlocks_cooperative (id total blksize : Nat) (hbk : 0 < blksize) :
    ∀ (k b t : Nat) (bytes : List Nat), b < 65536 →
      bytes.length = k * blksize →
      (rrqBlocks id total blksize bytes b t (mkAcks b (k + 1)) (k + 1)).out =
          .completed ∧
      (rrqBlocks id total blksize bytes b t (mkAcks b (k + 1))
        (k + 1)).sends.length = k + 1 ∧
      (rrqBlocks id total blksize bytes b t (mkAcks b (k + 1))
        (k + 1)).sends.getLast? = some (dataBytes ((b + k) % 65536) []) := by
  intro k
  induction k with
  | zero =>
    intro b t bytes hb hlen
    have hbytes : bytes = [] := by
      cases bytes with
      | nil => rfl
      | cons x xs => simp at hlen
    subst hbytes
    have h1 := awaitAck_immediate (dataBytes b []) b .timeoutRetries
      (mkAcks ((b + 1) % 65536) 0) 0 hb
    have hstep : rrqBlocks id total blksize [] b t (mkAcks b 1) 1 =
        ⟨[Ev.progress id t total], [dataBytes b []], .completed⟩ := by
      rw [show mkAcks b 1 =
        .pkt (ackBytes b) :: mkAcks ((b + 1) % 65536) 0 from rfl]
      rw [rrqBlocks]
      rw [List.take_nil]
      rw [h1]
      simp [hbk]
    rw [hstep]
    refine ⟨rfl, rfl, ?_⟩
    simp [Nat.mod_eq_of_lt hb]
  | succ k ih =>
    intro b t bytes hb hlen
    have hm : (k + 1) * blksize = k * blksize + blksize := Nat.succ_mul k blksize
    have hge : blksize ≤ bytes.length := by omega
    have hpay : (bytes.take blksize).length = blksize := by
      simp [List.length_take]
      omega
    have hnl : ¬ ((bytes.take blksize).length < blksize) := by
      rw [hpay]
      omega
    have hb' : (b + 1) % 65536 < 65536 := Nat.mod_lt _ (by omega)
    have hlen' : (bytes.drop blksize).length = k * blksize := by
      simp [List.length_drop]
      omega
    obtain ⟨ihout, ihlen, ihlast⟩ :=
      ih ((b + 1) % 65536) (t + (bytes.take blksize).length)
        (bytes.drop blksize) hb' hlen'
    have h1 := awaitAck_immediate (dataBytes b (bytes.take blksize))
      b .timeoutRetries (mkAcks ((b + 1) % 65536) (k + 1)) 0 hb
    have hstep : rrqBlocks id total blksize bytes b t
        (mkAcks b (k + 1 + 1)) (k + 1 + 1) =
        ⟨Ev.progress id (t + (bytes.take blksize).length) total ::
            (rrqBlocks id total blksize (bytes.drop blksize) ((b + 1) % 65536)
              (t + (bytes.take blksize).length)
              (mkAcks ((b + 1) % 65536) (k + 1)) (k + 1)).events,
          dataBytes b (bytes.take blksize) ::
            (rrqBlocks id total blksize (bytes.drop blksize) ((b + 1) % 65536)
              (t + (bytes.take blksize).length)
              (mkAcks ((b + 1) % 65536) (k + 1)) (k + 1)).sends,
          (rrqBlocks id total blksize (bytes.drop blksize) ((b + 1) % 65536)
            (t + (bytes.take blksize).length)
            (mkAcks ((b + 1) % 65536) (k + 1)) (k + 1)).out⟩ := by
      rw [show mkAcks b (k + 1 + 1) =
        .pkt (ackBytes b) :: mkAcks ((b + 1) % 65536) (k + 1) from rfl]
      rw [rrqBlocks]
      rw [h1]
      dsimp only
      rw [if_neg hnl]
      simp only [List.singleton_append]
    rw [hstep]
    have hsne : (rrqBlocks id total blksize (bytes.drop blksize)
        ((b + 1) % 65536) (t + (bytes.take blksize).length)
        (mkAcks ((b + 1) % 65536) (k + 1)) (k + 1)).sends ≠ [] := by
      intro hcon
      rw [hcon] at ihlen
      simp at ihlen
    refine ⟨ihout, ?_, ?_⟩
    · simp only [List.length_cons, ihlen]
    · have hcons : ∀ (x : List Nat) (l : List (List Nat)), l ≠ [] →
          (x :: l).getLast? = l.getLast? := by
        intro x l hl
        cases l with
        | nil => exact absurd rfl hl
        | cons y ys => exact List.getLast?_cons_cons
      rw [hcons _ _ hsne, ihlast]
      have harith : ((b + 1) % 65536 + k) % 65536 = (b + (k + 1)) % 65536 := by
        omega
      rw [harith]

/-- C7: a download over a file of exact positive multiple length
`k × blksize`, with a cooperative client, sends exactly `k + 1` DATA
blocks, the last of which has an empty payload, and the session completes
after that final block is acknowledged. -/
theorem rrq_exact_multiple (id total blksize k : Nat) (bytes : List Nat)
    (hbk : 0 < blksize) (hk : 1 ≤ k) (hlen : bytes.length = k * blksize) :
    (rrqBlocks id total blksize bytes 1 0 (mkAcks 1 (k + 1)) (k + 1)).out =
        .completed ∧
    (rrqBlocks id total blksize bytes 1 0 (mkAcks 1 (k + 1))
      (k + 1)).sends.length = k + 1 ∧
    (rrqBlocks id total blksize bytes 1 0 (mkAcks 1 (k + 1))
      (k + 1)).sends.getLast? = some (dataBytes ((1 + k) % 65536) []) :=
  rrqBlocks_cooperative id total blksize hbk k 1 0 bytes (by omega) hlen

/-- Witness for C7: a 2-byte file at blksize 1 (k = 2): three DATA blocks,
the third empty. -/
theorem rrq_exact_multiple_witness :
    (rrqBlocks 1 2 1 [5, 6] 1 0 (mkAcks 1 (2 + 1)) (2 + 1)).out =
        .completed ∧
    (rrqBlocks 1 2 1 [5, 6] 1 0 (mkAcks 1 (2 + 1))
      (2 + 1)).sends.length = 2 + 1 ∧
    (rrqBlocks 1 2 1 [5, 6] 1 0 (mkAcks 1 (2 + 1))
      (2 + 1)).sends.getLast? = some (dataBytes ((1 + 2) % 65536) []) :=
  rrq_exact_multiple 1 2 1 2 [5, 6] (by omega) (by omega) (by rfl)

-- ---------------------------------------------------------------------------
-- Event-stream discipline (C4)
-- ---------------------------------------------------------------------------

/-- Lifecycle events (everything but log lines). -/
def isLifecycle : Ev → Bool
  | .log => false
  | _ => true

/-- Model of `TransferProgress` carrying this session id. -/
def isProgressOf (id : Nat) : Ev → Bool
  | .progress i _ _ => i = id
  | _ => false

/-- Zero or more progress events for this id followed by exactly one
terminator (`TransferComplete` or `TransferFailed`) for this id, and
nothing after it. -/
def progressThenTerm (id : Nat) : List Ev → Bool
  | [.complete i] => i = id
  | [.failed i _] => i = id
  | .progress i _ _ :: rest => i = id && progressThenTerm id rest
  | _ => false

/-- The amended per-session trace shape: either one `TransferStarted`
followed by progress events and exactly one terminator, or — when setup
fails before the start event — a single `TransferFailed` alone. -/
def shapeOk (id : Nat) : List Ev → Bool
  | .started i _ _ _ :: rest => i = id && progressThenTerm id rest
  | [.failed i _] => i = id
  | _ => false

theorem progressThenTerm_append (id : Nat) :
    ∀ l : List Ev, l.all (isProgressOf id) = true →
      ∀ tl, progressThenTerm id tl = true →
        progressThenTerm id (l ++ tl) = true := by
  intro l
  induction l with
  | nil => intro _ tl h; simpa using h
  | cons e l ih =>
    intro hall tl htl
    simp only [List.all_cons, Bool.and_eq_true] at hall
    cases e with
    | progress i a b =>
      simp only [isProgressOf, decide_eq_true_eq] at hall
      have hrest := ih hall.2 tl htl
      simp only [List.cons_append, progressThenTerm, hall.1]
      simp [hrest]
    | log => simp [isProgressOf] at hall
    | started i a b c => simp [isProgressOf] at hall
    | complete i => simp [isProgressOf] at hall
    | failed i m => simp [isProgressOf] at hall

theorem filter_lifecycle_of_progress (id : Nat) :
    ∀ l : List Ev, l.all (isProgressOf id) = true →
      l.filter isLifecycle = l := by
  intro l
  induction l with
  | nil => intro _; rfl
  | cons e l ih =>
    intro hall
    simp only [List.all_cons, Bool.and_eq_true] at hall
    cases e with
    | progress i a b =>
      simp only [List.filter_cons, isLifecycle, if_true]
      rw [ih hall.2]
    | log => simp [isProgressOf] at hall
    | started i a b c => simp [isProgressOf] at hall
    | complete i => simp [isProgressOf] at hall
    | failed i m => simp [isProgressOf] at hall

theorem rrqBlocks_events_progress (id total blksize : Nat) :
    ∀ (fuel : Nat) (bytes : List Nat) (b t : Nat) (events : List RecvEvent),
      ((rrqBlocks id total blksize bytes b t events fuel).events).all
        (isProgressOf id) = true := by
  intro fuel
  induction fuel with
  | zero => intro bytes b t events; simp [rrqBlocks]
  | succ f ih =>
    intro bytes b t events
    rw [rrqBlocks]
    rcases h : awaitAck (dataBytes b (bytes.take blksize)) b .timeoutRetries
        events 0 with ⟨s, o⟩
    cases o with
    | failed e => simp
    | starved => simp
    | got rest =>
      dsimp only
      rcases Nat.lt_or_ge bytes.length blksize with hl | hl
      · have hcond : (List.take blksize bytes).length < blksize := by
          simp [List.length_take]
          omega
        rw [if_pos hcond]
        simp [isProgressOf]
      · have hcond : ¬ ((List.take blksize bytes).length < blksize) := by
          simp [List.length_take]
          omega
        rw [if_neg hcond]
        simp only [List.all_cons, Bool.and_eq_true]
        refine ⟨by simp [isProgressOf], ?_⟩
        rw [ih (bytes.drop blksize) ((b + 1) % 65536)
          (t + (bytes.take blksize).length) rest]

theorem wrqBlocks_events_progress (id blksize : Nat) :
    ∀ (fuel e t : Nat) (file : List Nat) (events : List RecvEvent),
      ((wrqBlocks id blksize e t file events fuel).events).all
        (isProgressOf id) = true := by
  intro fuel
  induction fuel with
  | zero => intro e t file events; simp [wrqBlocks]
  | succ f ih =>
    intro e t file events
    rw [wrqBlocks]
    rcases h : wrqAwait e events 0 with ⟨s, o⟩
    cases o with
    | failed e' => simp
    | starved => simp
    | got payload rest =>
      dsimp only
      by_cases hl : payload.length < blksize
      · rw [if_pos hl]
        simp [isProgressOf]
      · rw [if_neg hl]
        simp only [List.all_cons, Bool.and_eq_true]
        refine ⟨by simp [isProgressOf], ?_⟩
        rw [ih ((e + 1) % 65536) (t + payload.length) (file ++ payload) rest]

theorem rrqAfterStart_trace (id total blksize : Nat) (evs0 : List Ev)
    (phase1 : List (List Nat) × AwaitOut) (fileBytes : List Nat)
    (fuel : Nat) :
    ∃ pl, pl.all (isProgressOf id) = true ∧
      (((rrqAfterStart id total blksize evs0 phase1 fileBytes fuel).events =
          evs0 ++ pl ∧
        (rrqAfterStart id total blksize evs0 phase1 fileBytes fuel).out ≠
          .completed) ∨
       ((rrqAfterStart id total blksize evs0 phase1 fileBytes fuel).events =
          evs0 ++ (pl ++ [.complete id, .log]) ∧
        (rrqAfterStart id total blksize evs0 phase1 fileBytes fuel).out =
          .completed)) := by
  rcases phase1 with ⟨s1, o1⟩
  cases o1 with
  | failed e =>
    exact ⟨[], rfl, .inl ⟨by simp [rrqAfterStart], by simp [rrqAfterStart]⟩⟩
  | starved =>
    exact ⟨[], rfl, .inl ⟨by simp [rrqAfterStart], by simp [rrqAfterStart]⟩⟩
  | got rest =>
    have hall := rrqBlocks_events_progress id total blksize fuel fileBytes
      1 0 rest
    rcases hr : rrqBlocks id total blksize fileBytes 1 0 rest fuel
      with ⟨evs, snds, o⟩
    rw [hr] at hall
    refine ⟨evs, hall, ?_⟩
    cases o with
    | completed =>
      right
      constructor
      · simp [rrqAfterStart, hr]
      · simp [rrqAfterStart, hr]
    | err e =>
      left
      constructor
      · simp [rrqAfterStart, hr]
      · simp [rrqAfterStart, hr]
    | starved =>
      left
      constructor
      · simp [rrqAfterStart, hr]
      · simp [rrqAfterStart, hr]

theorem handle_rrq_trace (id : Nat) (fs : Fs) (dir : List String)
    (filename : String) (options : List (String × String))
    (metadata : Option Nat) (fileBytes : List Nat) (os_max : Nat)
    (events : List RecvEvent) (fuel : Nat) :
    (∃ e, (handle_rrq id fs dir filename options metadata fileBytes os_max
        events fuel).events = [] ∧
      (handle_rrq id fs dir filename options metadata fileBytes os_max
        events fuel).out = .err e) ∨
    (∃ tb pl, pl.all (isProgressOf id) = true ∧
      (((handle_rrq id fs dir filename options metadata fileBytes os_max
          events fuel).events =
            .log :: .started id .download tb true :: pl ∧
        (handle_rrq id fs dir filename options metadata fileBytes os_max
          events fuel).out ≠ .completed) ∨
       ((handle_rrq id fs dir filename options metadata fileBytes os_max
          events fuel).events =
            .log :: .started id .download tb true ::
              (pl ++ [.complete id, .log]) ∧
        (handle_rrq id fs dir filename options metadata fileBytes os_max
          events fuel).out = .completed))) := by
  rcases hs : sanitize_path fs dir filename with e | pth
  · left
    exact ⟨.sanitize e, by simp [handle_rrq, hs], by simp [handle_rrq, hs]⟩
  · rcases hm : metadata with _ | total
    · left
      exact ⟨.metadataErr, by simp [handle_rrq, hs, hm],
        by simp [handle_rrq, hs, hm]⟩
    · right
      have hred : handle_rrq id fs dir filename options metadata fileBytes
          os_max events fuel =
          rrqAfterStart id total (negotiate_options options os_max).1
            [.log, .started id .download total true]
            (if (if containsStr (negotiate_options options os_max).2 "tsize"
                then insertStr (negotiate_options options os_max).2 "tsize"
                  (toString total)
                else (negotiate_options options os_max).2).isEmpty then
              (([] : List (List Nat)), AwaitOut.got events)
            else
              awaitAck (Packet.to_bytes (.OACK (optsToBytes
                (if containsStr (negotiate_options options os_max).2 "tsize"
                  then insertStr (negotiate_options options os_max).2 "tsize"
                    (toString total)
                  else (negotiate_options options os_max).2)))) 0
                .timeoutOack events 0)
            fileBytes fuel := by
        simp only [handle_rrq, hs, hm]
      obtain ⟨pl, hall, hc⟩ := rrqAfterStart_trace id total
        (negotiate_options options os_max).1
        [.log, .started id .download total true]
        (if (if containsStr (negotiate_options options os_max).2 "tsize"
            then insertStr (negotiate_options options os_max).2 "tsize"
              (toString total)
            else (negotiate_options options os_max).2).isEmpty then
          (([] : List (List Nat)), AwaitOut.got events)
        else
          awaitAck (Packet.to_bytes (.OACK (optsToBytes
            (if containsStr (negotiate_options options os_max).2 "tsize"
              then insertStr (negotiate_options options os_max).2 "tsize"
                (toString total)
              else (negotiate_options options os_max).2)))) 0
            .timeoutOack events 0)
        fileBytes fuel
      refine ⟨total, pl, hall, ?_⟩
      rw [hm] at hred
      rw [hred]
      simpa using hc

theorem handle_wrq_trace (id : Nat) (fs : Fs) (dir : List String)
    (filename : String) (options : List (String × String)) (os_max : Nat)
    (orig : Option (List Nat)) (events : List RecvEvent) (fuel : Nat) :
    (∃ e, (handle_wrq id fs dir filename options os_max orig events
        fuel).events = [] ∧
      (handle_wrq id fs dir filename options os_max orig events fuel).out =
        .err e) ∨
    (∃ pl, pl.all (isProgressOf id) = true ∧
      (((handle_wrq id fs dir filename options os_max orig events
          fuel).events = .log :: .started id .upload 0 false :: pl ∧
        (handle_wrq id fs dir filename options os_max orig events fuel).out ≠
          .completed) ∨
       ((handle_wrq id fs dir filename options os_max orig events
          fuel).events = .log :: .started id .upload 0 false ::
            (pl ++ [.complete id, .log]) ∧
        (handle_wrq id fs dir filename options os_max orig events fuel).out =
          .completed))) := by
  rcases hs : sanitize_path fs dir filename with e | pth
  · left
    exact ⟨.sanitize e, by simp [handle_wrq, hs], by simp [handle_wrq, hs]⟩
  · right
    have hall := wrqBlocks_events_progress id
      (negotiate_options options os_max).1 fuel 1 0 [] events
    rcases hr : wrqBlocks id (negotiate_options options os_max).1 1 0 []
      events fuel with ⟨evs, snds, wr, fl, o⟩
    rw [hr] at hall
    refine ⟨evs, hall, ?_⟩
    cases o with
    | completed =>
      right
      constructor
      · simp [handle_wrq, hs, hr]
      · simp [handle_wrq, hs, hr]
    | err e =>
      left
      constructor
      · simp [handle_wrq, hs, hr]
      · simp [handle_wrq, hs, hr]
    | starved =>
      left
      constructor
      · simp [handle_wrq, hs, hr]
      · simp [handle_wrq, hs, hr]

theorem wrapped_shape (id : Nat) (hev : List Ev) (hout : SessOutcome)
    (htr : (hev = [] ∧ ∃ e, hout = .err e) ∨
      (∃ kind tb sk pl, pl.all (isProgressOf id) = true ∧
        ((hev = .log :: .started id kind tb sk :: pl ∧ hout ≠ .completed) ∨
         (hev = .log :: .started id kind tb sk ::
            (pl ++ [.complete id, .log]) ∧ hout = .completed))))
    (task : List Ev × SessOutcome)
    (htask : task = wrapTask id hev hout)
    (hfin : task.2 ≠ .starved) :
    shapeOk id (task.1.filter isLifecycle) = true := by
  cases hout with
  | starved =>
    rw [htask] at hfin
    simp [wrapTask] at hfin
  | err e =>
    rw [htask]
    dsimp only [wrapTask]
    rcases htr with ⟨hev0, _⟩ | ⟨kind, tb, sk, pl, hall, hc⟩
    · subst hev0
      simp [isLifecycle, shapeOk]
    · rcases hc with ⟨hev1, _⟩ | ⟨hev1, hco⟩
      · subst hev1
        have hptt := progressThenTerm_append id pl hall
          [.failed id (renderErr e)] (by simp [progressThenTerm])
        simp only [List.cons_append, List.filter_cons, List.filter_append,
          isLifecycle]
        rw [filter_lifecycle_of_progress id pl hall]
        simp [shapeOk, hptt]
      · simp at hco
  | completed =>
    rw [htask]
    dsimp only [wrapTask]
    rcases htr with ⟨hev0, e', he'⟩ | ⟨kind, tb, sk, pl, hall, hc⟩
    · simp at he'
    · rcases hc with ⟨hev1, hne⟩ | ⟨hev1, _⟩
      · exact absurd rfl hne
      · subst hev1
        have hptt := progressThenTerm_append id pl hall
          [.complete id] (by simp [progressThenTerm])
        simp only [List.cons_append, List.filter_cons, List.filter_append,
          isLifecycle]
        rw [filter_lifecycle_of_progress id pl hall]
        simp [shapeOk, hptt]

/-- C4 (amended): every session task that has finished (its outcome is not
the still-running marker) has a well-shaped lifecycle trace: either one
`TransferStarted` followed by zero or more `TransferProgress` events and
exactly one terminator (`TransferComplete` or `TransferFailed`), all for
its session id — or, when setup fails before the start event (sanitizer or
metadata failure), a single `TransferFailed` with no `TransferStarted`. -/
theorem session_event_discipline :
    (∀ (id : Nat) (fs : Fs) (dir : List String) (filename : String)
        (options : List (String × String)) (metadata : Option Nat)
        (fileBytes : List Nat) (os_max : Nat) (events : List RecvEvent)
        (fuel : Nat),
      (rrqTask id fs dir filename options metadata fileBytes os_max events
          fuel).2 ≠ .starved →
      shapeOk id ((rrqTask id fs dir filename options metadata fileBytes
        os_max events fuel).1.filter isLifecycle) = true) ∧
    (∀ (id : Nat) (fs : Fs) (dir : List String) (filename : String)
        (options : List (String × String)) (os_max : Nat)
        (orig : Option (List Nat)) (events : List RecvEvent) (fuel : Nat),
      (wrqTask id fs dir filename options os_max orig events fuel).2 ≠
          .starved →
      shapeOk id ((wrqTask id fs dir filename options os_max orig events
        fuel).1.filter isLifecycle) = true) := by
  constructor
  · intro id fs dir filename options metadata fileBytes os_max events fuel
      hfin
    rcases hh : handle_rrq id fs dir filename options metadata fileBytes
      os_max events fuel with ⟨hev, hsn, hout⟩
    have htr0 := handle_rrq_trace id fs dir filename options metadata
      fileBytes os_max events fuel
    rw [hh] at htr0
    dsimp only at htr0
    have htr : (hev = [] ∧ ∃ e, hout = .err e) ∨
        (∃ kind tb sk pl, pl.all (isProgressOf id) = true ∧
          ((hev = .log :: .started id kind tb sk :: pl ∧
            hout ≠ .completed) ∨
           (hev = .log :: .started id kind tb sk ::
              (pl ++ [.complete id, .log]) ∧ hout = .completed))) := by
      rcases htr0 with ⟨e, h1, h2⟩ | ⟨tb, pl, hall, hc⟩
      · exact .inl ⟨h1, e, h2⟩
      · exact .inr ⟨.download, tb, true, pl, hall, hc⟩
    have htask : rrqTask id fs dir filename options metadata fileBytes
        os_max events fuel = wrapTask id hev hout := by
      simp only [rrqTask, hh]
    exact wrapped_shape id hev hout htr _ htask hfin
  · intro id fs dir filename options os_max orig events fuel hfin
    rcases hh : handle_wrq id fs dir filename options os_max orig events
      fuel with ⟨hev, hsn, hdisk, hwr, hout⟩
    have htr0 := handle_wrq_trace id fs dir filename options os_max orig
      events fuel
    rw [hh] at htr0
    dsimp only at htr0
    have htr : (hev = [] ∧ ∃ e, hout = .err e) ∨
        (∃ kind tb sk pl, pl.all (isProgressOf id) = true ∧
          ((hev = .log :: .started id kind tb sk :: pl ∧
            hout ≠ .completed) ∨
           (hev = .log :: .started id kind tb sk ::
              (pl ++ [.complete id, .log]) ∧ hout = .completed))) := by
      rcases htr0 with ⟨e, h1, h2⟩ | ⟨pl, hall, hc⟩
      · exact .inl ⟨h1, e, h2⟩
      · exact .inr ⟨.upload, 0, false, pl, hall, hc⟩
    have htask : wrqTask id fs dir filename options os_max orig events
        fuel = wrapTask id hev hout := by
      simp only [wrqTask, hh]
    exact wrapped_shape id hev hout htr _ htask hfin

/-- C4 counterexample: an RRQ whose filename is rejected by the sanitizer
(`".."`) emits `TransferFailed` (then a log line) with NO preceding
`TransferStarted` for its id — the claimed "exactly one `TransferStarted`
… no `TransferFailed` without a preceding `TransferStarted`" fails. -/
theorem session_event_discipline_counterexample :
    (rrqTask 1 demoFs ["root"] ".." [] (some 0) [] 512 [] 1).1 =
      [.failed 1 "path traversal is not allowed", .log] := by
  rfl

/-- Witness for C4's amended statement: a completed one-block download. -/
theorem session_event_discipline_witness :
    shapeOk 1 ((rrqTask 1 demoFs ["root"] "a.txt" [] (some 1) [9] 512
      [.pkt (ackBytes 1)] 1).1.filter isLifecycle) = true :=
  session_event_discipline.1 1 demoFs ["root"] "a.txt" [] (some 1) [9] 512
    [.pkt (ackBytes 1)] 1 (by decide)
